import Mathlib

/-!
# GLYUVRender (BMIMediaPlayer/testProject/mediaPlayerTest/glyuvrender.cpp)

A shallow embedding of the YUV render widget: the two `I420Image` buffers
`m_Front` / `m_Back` living in the free store, the operations that allocate,
swap and release them, the paint and resize callbacks, and the colour
transform of the fragment shader.

Conventions

* A pointer to an `I420Image` is `Option Nat`: `none` is the null pointer,
  `some a` the address `a` in the free store `heap`.
* An operation that would dereference or delete a dangling pointer
  (undefined behaviour in C++) returns `none`.
* `float` is IEEE 754 binary32 (type `F32`): every operation rounds to
  nearest, ties to even, with signed zeros, infinities and NaN.
* `new` always succeeds and hands out an address not in use.
* The mutex `m_imgMutex` serialises the operations; the embedding is the
  sequential semantics of completed calls.
-/

namespace GLYUV

/-- One `unsigned char`. -/
abbrev Byte := Fin 256

/-- Modelled from the spec: the class `I420Image` of `frame.h`, which is not
part of the sources at hand. One frame of planar YUV 4:2:0 at a fixed width
and height: three contiguous byte planes Y, U, V, the luma plane of
`width*height` bytes and each chroma plane of `(width/2)*(height/2)` bytes. -/
structure I420Image where
  width : Int
  height : Int
  data : List Byte

/-- Modelled from the spec: number of bytes of the luma plane. -/
def I420Image.ySize (w h : Int) : Nat := (w * h).toNat

/-- Modelled from the spec: number of bytes of one chroma plane (C++ integer
division, which truncates). -/
def I420Image.cSize (w h : Int) : Nat := (Int.tdiv w 2 * Int.tdiv h 2).toNat

/-- Modelled from the spec: the constructor `I420Image(nWidth, nHeight)`
of `frame.h`. The planes are allocated at their 4:2:0 sizes; their initial
content is taken to be zero. The spec gives these sizes for positive even
dimensions; for other dimensions this stand-in applies the same formulas
(a plane of non-positive size is empty), and no statement about the images
allocated is made below for non-positive dimensions. -/
def I420Image.create (w h : Int) : I420Image :=
  { width := w, height := h,
    data := List.replicate (I420Image.ySize w h + 2 * I420Image.cSize w h) 0 }

def I420Image.GetWidth (img : I420Image) : Int := img.width

def I420Image.GetHeight (img : I420Image) : Int := img.height

/-- An `unsigned char*` into the storage of an image: the address of the
image and a byte offset inside its planes. -/
structure BytePtr where
  obj : Nat
  off : Nat
deriving DecidableEq

/-- Modelled from the spec: `I420Image::GetY()`, start of the luma plane. -/
def I420Image.GetY (self : Nat) : BytePtr := { obj := self, off := 0 }

/-- Modelled from the spec: `I420Image::GetU()`, start of the first chroma
plane, right after the luma plane. -/
def I420Image.GetU (self : Nat) (img : I420Image) : BytePtr :=
  { obj := self, off := I420Image.ySize img.width img.height }

/-- Modelled from the spec: `I420Image::GetV()`, start of the second chroma
plane. -/
def I420Image.GetV (self : Nat) (img : I420Image) : BytePtr :=
  { obj := self,
    off := I420Image.ySize img.width img.height + I420Image.cSize img.width img.height }

/-- The `n` bytes found at byte offset `off` of an image. -/
def I420Image.read (img : I420Image) (off n : Nat) : List Byte :=
  (img.data.drop off).take n

/-- The bytes `bytes` stored at byte offset `off` of an image; `none` when the
store would run past the end of the planes. -/
def I420Image.store (img : I420Image) (off : Nat) (bytes : List Byte) :
    Option I420Image :=
  if off + bytes.length ≤ img.data.length then
    some { img with
      data := img.data.take off ++ bytes ++ img.data.drop (off + bytes.length) }
  else none

/-- `IFrame::Format...` of `frame.h`; the renderer only ever reports
`FormatYUV420P`. -/
inductive PixelFormat
  | FormatYUV420P
deriving DecidableEq

/-! ### binary32 arithmetic

The C++ type `float` and the GLSL type `float` are taken to be IEEE 754
binary32 with round-to-nearest, ties-to-even, every operation rounded on its
own. -/

/-- The integer nearest to `y`, ties to the even one. -/
def roundEven (y : ℚ) : ℤ :=
  if y - (⌊y⌋ : ℚ) < 1 / 2 then ⌊y⌋
  else if 1 / 2 < y - (⌊y⌋ : ℚ) then ⌊y⌋ + 1
  else if ⌊y⌋ % 2 = 0 then ⌊y⌋ else ⌊y⌋ + 1

/-- The binary32 exponent of a magnitude `x`: `⌊log₂ x⌋`, and `-126` in the
subnormal range. -/
def F32.expo (x : ℚ) : ℤ := max (Int.log 2 x) (-126)

/-- The multiple of the binary32 quantum `2^(expo x - 23)` nearest to the
magnitude `x ≥ 0` (24 significant bits, ties to even); the exponent is not
bounded above here, overflow is decided by the caller. -/
def F32.rnd (x : ℚ) : ℚ :=
  (roundEven (x / (2 : ℚ) ^ (F32.expo x - 23)) : ℚ) * (2 : ℚ) ^ (F32.expo x - 23)

/-- A binary32 datum: a finite value given by sign and magnitude (so that the
two zeros are told apart), an infinity, or a NaN. -/
inductive F32
  | fin (neg : Bool) (mag : ℚ)
  | inf (neg : Bool)
  | nan
deriving DecidableEq

/-- The rational `(-1)^neg * mag`. -/
def F32.signed (neg : Bool) (mag : ℚ) : ℚ := if neg then -mag else mag

/-- The value of a finite datum. -/
def F32.toRat : F32 → Option ℚ
  | .fin neg mag => some (F32.signed neg mag)
  | _ => none

/-- The binary32 result for an exact result of sign `neg` and magnitude
`mag`: the nearest binary32 magnitude, or an infinity once that reaches
`2^128`. -/
def F32.round (neg : Bool) (mag : ℚ) : F32 :=
  if F32.rnd mag < 2 ^ 128 then .fin neg (F32.rnd mag) else .inf neg

/-- The conversion of an `int` to `float`. -/
def F32.ofInt (n : Int) : F32 := F32.round (decide (n < 0)) |(n : ℚ)|

/-- The value of a non-negative decimal literal such as `2.0f` or `0.39465`. -/
def F32.lit (x : ℚ) : F32 := F32.round false x

/-- Unary minus. -/
def F32.neg : F32 → F32
  | .fin neg mag => .fin (!neg) mag
  | .inf neg => .inf (!neg)
  | .nan => .nan

/-- The product `a * b`. -/
def F32.mul : F32 → F32 → F32
  | .fin n1 m1, .fin n2 m2 => F32.round (n1 != n2) (m1 * m2)
  | .fin n1 m1, .inf n2 => if m1 = 0 then .nan else .inf (n1 != n2)
  | .inf n1, .fin n2 m2 => if m2 = 0 then .nan else .inf (n1 != n2)
  | .inf n1, .inf n2 => .inf (n1 != n2)
  | _, _ => .nan

/-- The quotient `a / b`. -/
def F32.div : F32 → F32 → F32
  | .fin n1 m1, .fin n2 m2 =>
    if m2 = 0 then (if m1 = 0 then .nan else .inf (n1 != n2))
    else F32.round (n1 != n2) (m1 / m2)
  | .fin n1 _, .inf n2 => .fin (n1 != n2) 0
  | .inf n1, .fin n2 _ => .inf (n1 != n2)
  | _, _ => .nan

/-- The sum `a + b`. -/
def F32.add : F32 → F32 → F32
  | .fin n1 m1, .fin n2 m2 =>
    if F32.signed n1 m1 + F32.signed n2 m2 = 0 then .fin (n1 && n2) 0
    else F32.round (decide (F32.signed n1 m1 + F32.signed n2 m2 < 0))
      |F32.signed n1 m1 + F32.signed n2 m2|
  | .fin _ _, .inf n2 => .inf n2
  | .inf n1, .fin _ _ => .inf n1
  | .inf n1, .inf n2 => if n1 = n2 then .inf n1 else .nan
  | _, _ => .nan

/-- The difference `a - b`. -/
def F32.sub (a b : F32) : F32 := F32.add a (F32.neg b)

/-- The comparison `a > b`. -/
def F32.gt : F32 → F32 → Bool
  | .fin n1 m1, .fin n2 m2 => decide (F32.signed n2 m2 < F32.signed n1 m1)
  | .fin _ _, .inf n2 => n2
  | .inf n1, .fin _ _ => !n1
  | .inf n1, .inf n2 => !n1 && n2
  | _, _ => false

/-- A `QMatrix4x4` as the renderer builds it: the identity, followed by at
most one call of `lookAt` or `ortho`, recorded with its arguments (the three
vectors of `lookAt` have the exactly representable components written in the
source). -/
inductive QMatrix4x4
  | identity
  | lookAt (eye center up : ℚ × ℚ × ℚ)
  | ortho (left right bottom top nearPlane farPlane : F32)
deriving DecidableEq

/-- The `QPaintLaterEvent` of `updateUi`: an `UpdateLater` event carrying the
region `QRegion(x, y, w, h)`. -/
structure QPaintLaterEvent where
  x : Int
  y : Int
  w : Int
  h : Int
deriving DecidableEq

/-- The widget. `heap` is the free store of `I420Image` objects, `next` the
next address `new` hands out, `width` / `height` the widget geometry
(`this->width()`, `this->height()`), `posted` the events handed to
`QCoreApplication::postEvent`, oldest first. -/
structure GLYUVRender where
  heap : Nat → Option I420Image
  next : Nat
  m_Front : Option Nat
  m_Back : Option Nat
  width : Int
  height : Int
  mWorld : QMatrix4x4
  mView : QMatrix4x4
  mProj : QMatrix4x4
  posted : List QPaintLaterEvent

/-- `GLYUVRender::GLYUVRender`: both pointers null, default (identity)
matrices, for a widget of the given geometry. -/
def GLYUVRender.construct (width height : Int) : GLYUVRender :=
  { heap := fun _ => none, next := 0, m_Front := none, m_Back := none,
    width := width, height := height,
    mWorld := .identity, mView := .identity, mProj := .identity, posted := [] }

/-- The C++ expression `new I420Image(w, h)`: a fresh address holding a newly
constructed image. -/
def GLYUVRender.new (s : GLYUVRender) (w h : Int) : GLYUVRender × Nat :=
  ({ s with
      heap := fun a => if a = s.next then some (I420Image.create w h) else s.heap a,
      next := s.next + 1 },
   s.next)

/-- The C++ statement `delete p` for a non-null `p`: `none` when `p` does not
point to a live image. -/
def GLYUVRender.delete (s : GLYUVRender) (p : Nat) : Option GLYUVRender :=
  match s.heap p with
  | none => none
  | some _ => some { s with heap := fun a => if a = p then none else s.heap a }

/-- `GLYUVRender::getVideoFrameBuffer`. -/
def getVideoFrameBuffer (s : GLYUVRender) : Option BytePtr :=
  match s.m_Back with
  | some b => some (I420Image.GetY b)
  | none => none

/-- `GLYUVRender::updateUi`: posts one `QPaintLaterEvent` for the whole
widget. -/
def updateUi (s : GLYUVRender) : GLYUVRender :=
  { s with posted := s.posted ++ [{ x := 0, y := 0, w := s.width, h := s.height }] }

/-- `GLYUVRender::resizeGL`. The operands of type `int` are converted to
`float` where C++ converts them, and every product and quotient is a binary32
operation. -/
def resizeGL (w h : Int) (s : GLYUVRender) : Option GLYUVRender :=
  let viewWidth : F32 := F32.lit 2
  let viewHeight : F32 := F32.lit 2
  let s1 : GLYUVRender :=
    { s with mWorld := .identity, mView := .lookAt (0, 0, 1) (0, 0, 0) (0, 1, 0) }
  let ext : Option (F32 × F32) :=
    match s1.m_Front with
    | none => some (viewWidth, viewHeight)
    | some p =>
      match s1.heap p with
      | none => none
      | some img =>
        let aspectRatio : F32 := F32.div (F32.ofInt img.GetWidth) (F32.ofInt img.GetHeight)
        if F32.gt (F32.div (F32.ofInt w) (F32.ofInt h)) aspectRatio = true then
          let viewHeight : F32 := F32.lit 2
          let viewWidth : F32 :=
            F32.div (F32.mul (F32.ofInt w) viewHeight) (F32.mul aspectRatio (F32.ofInt h))
          some (viewWidth, viewHeight)
        else
          let viewWidth : F32 := F32.lit 2
          let viewHeight : F32 :=
            F32.div (F32.mul (F32.ofInt h) viewWidth)
              (F32.mul (F32.div (F32.ofInt 1) aspectRatio) (F32.ofInt w))
          some (viewWidth, viewHeight)
  match ext with
  | none => none
  | some (viewWidth, viewHeight) =>
    some { s1 with
      mProj := .ortho (F32.div (F32.neg viewWidth) (F32.ofInt 2))
        (F32.div viewWidth (F32.ofInt 2)) (F32.div (F32.neg viewHeight) (F32.ofInt 2))
        (F32.div viewHeight (F32.ofInt 2)) (F32.neg (F32.lit 1)) (F32.lit 1) }

/-- `GLYUVRender::clearRenderer`. -/
def clearRenderer (s : GLYUVRender) : Option GLYUVRender :=
  let s1 : Option GLYUVRender :=
    match s.m_Front with
    | some p => (s.delete p).map (fun t => { t with m_Front := none })
    | none => some s
  match s1 with
  | none => none
  | some s1 =>
    let s2 : Option GLYUVRender :=
      match s1.m_Back with
      | some p => (s1.delete p).map (fun t => { t with m_Back := none })
      | none => some s1
    s2.map updateUi

/-- `GLYUVRender::setVideoInfo`; the second component is the value left in
the reference parameter `nFormat`. -/
def setVideoInfo (nWidth nHeight : Int) (s : GLYUVRender) :
    Option (GLYUVRender × PixelFormat) :=
  match clearRenderer s with
  | none => none
  | some s1 =>
    let (s2, f) := s1.new nWidth nHeight
    let s3 : GLYUVRender := { s2 with m_Front := some f }
    let (s4, b) := s3.new nWidth nHeight
    let s5 : GLYUVRender := { s4 with m_Back := some b }
    (resizeGL s5.width s5.height s5).map (fun t => (t, PixelFormat.FormatYUV420P))

/-- `GLYUVRender::createVideoFrameOver`. -/
def createVideoFrameOver (s : GLYUVRender) : GLYUVRender :=
  let p := s.m_Front
  let s1 : GLYUVRender := { s with m_Front := s.m_Back }
  let s2 : GLYUVRender := { s1 with m_Back := p }
  updateUi s2

/-- The texture names and uniform locations `InitShaders` obtains. -/
inductive GLName
  | tex_y | tex_u | tex_v
  | sampler_y | sampler_u | sampler_v
  | matWorld | matView | matProj
deriving DecidableEq

/-- The OpenGL calls of `paintGL`, with the arguments that vary. For
`glTexImage2D` the pixel pointer is resolved to the plane it designates: the
`width*height` tightly packed bytes that start at the pointer (the row
alignment `GL_UNPACK_ALIGNMENT` of the GL client state is not modelled). -/
inductive GLCall
  | glClearColor (r g b a : ℚ)
  | glClear
  | glActiveTexture (unit : Nat)
  | glBindTexture (tex : GLName)
  | glTexImage2D (width height : Int) (pixels : List Byte)
  | glUniform1i (location : GLName) (v : Int)
  | glUniformMatrix4fv (location : GLName) (m : QMatrix4x4)
  | glDrawArrays (first count : Nat)
  | glFlush
deriving DecidableEq

/-- `GLYUVRender::paintGL`: the OpenGL calls it issues, in order. -/
def paintGL (s : GLYUVRender) : Option (List GLCall) :=
  let clear : List GLCall := [.glClearColor 0 0 0 0, .glClear]
  match s.m_Front with
  | none => some (clear ++ [.glFlush])
  | some p =>
    match s.heap p with
    | none => none
    | some img =>
      let w := img.GetWidth
      let h := img.GetHeight
      some (clear ++
        [ .glActiveTexture 0, .glBindTexture .tex_y,
          .glTexImage2D w h (img.read (I420Image.GetY p).off (w * h).toNat),
          .glUniform1i .sampler_y 0,
          .glActiveTexture 1, .glBindTexture .tex_u,
          .glTexImage2D (Int.tdiv w 2) (Int.tdiv h 2)
            (img.read (I420Image.GetU p img).off (Int.tdiv w 2 * Int.tdiv h 2).toNat),
          .glUniform1i .sampler_u 1,
          .glActiveTexture 2, .glBindTexture .tex_v,
          .glTexImage2D (Int.tdiv w 2) (Int.tdiv h 2)
            (img.read (I420Image.GetV p img).off (Int.tdiv w 2 * Int.tdiv h 2).toNat),
          .glUniform1i .sampler_v 2,
          .glUniformMatrix4fv .matWorld s.mWorld,
          .glUniformMatrix4fv .matView s.mView,
          .glUniformMatrix4fv .matProj s.mProj,
          .glDrawArrays 0 4 ] ++ [.glFlush])

/-- The plane uploads (`glTexImage2D` pixel data) of a call sequence. -/
def uploadedPlanes : List GLCall → List (List Byte)
  | [] => []
  | .glTexImage2D _ _ px :: cs => px :: uploadedPlanes cs
  | _ :: cs => uploadedPlanes cs

/-- The number of draw calls (`glDrawArrays`) of a call sequence. -/
def drawCalls : List GLCall → Nat
  | [] => 0
  | .glDrawArrays _ _ :: cs => drawCalls cs + 1
  | _ :: cs => drawCalls cs

/-- What `paintGL` issues when it only clears. -/
def clearOnly : List GLCall := [.glClearColor 0 0 0 0, .glClear, .glFlush]

/-- `vertexVertices`: the four corners of the quad. -/
def vertexVertices : List (ℚ × ℚ) := [(-1, -1), (1, -1), (-1, 1), (1, 1)]

/-- The GLSL constructor `mat3(a, ..., i)`: nine scalars, column by column. -/
structure Mat3 where
  col0 : F32 × F32 × F32
  col1 : F32 × F32 × F32
  col2 : F32 × F32 × F32

/-- GLSL `mat3 * vec3`: the linear combination of the columns, each component
summed from left to right. -/
def Mat3.mulVec (m : Mat3) (v : F32 × F32 × F32) : F32 × F32 × F32 :=
  (F32.add (F32.add (F32.mul m.col0.1 v.1) (F32.mul m.col1.1 v.2.1)) (F32.mul m.col2.1 v.2.2),
   F32.add (F32.add (F32.mul m.col0.2.1 v.1) (F32.mul m.col1.2.1 v.2.1))
     (F32.mul m.col2.2.1 v.2.2),
   F32.add (F32.add (F32.mul m.col0.2.2 v.1) (F32.mul m.col1.2.2 v.2.1))
     (F32.mul m.col2.2.2 v.2.2))

/-- The `main` of `fragmentShader`, as a function of the three texture
samples (`texture2D(tex_y, textureOut).r` and so on): the `rgb` written to
`gl_FragColor`. -/
def fragmentShader (tex_y tex_u tex_v : F32) : F32 × F32 × F32 :=
  let yuv : F32 × F32 × F32 :=
    (tex_y, F32.sub tex_u (F32.lit 0.5), F32.sub tex_v (F32.lit 0.5))
  Mat3.mulVec
    { col0 := (F32.ofInt 1, F32.ofInt 1, F32.ofInt 1),
      col1 := (F32.ofInt 0, F32.neg (F32.lit 0.39465), F32.lit 2.03211),
      col2 := (F32.lit 1.13983, F32.neg (F32.lit 0.58060), F32.ofInt 0) } yuv

/-- Modelled from the spec: the decoder, which is outside this repository,
fills the buffer behind the pointer `p` it got from `getVideoFrameBuffer`:
`bytes` are stored from byte `off` on. `none` when `p` is dangling or the
store runs past the end of the planes. -/
def GLYUVRender.store (s : GLYUVRender) (p : BytePtr) (off : Nat) (bytes : List Byte) :
    Option GLYUVRender :=
  match s.heap p.obj with
  | none => none
  | some img =>
    match img.store (p.off + off) bytes with
    | none => none
    | some img1 =>
      some { s with heap := fun a => if a = p.obj then some img1 else s.heap a }

/-- Modelled from the spec: one producer write (`write_into_back`, then fill):
ask for the buffer with `getVideoFrameBuffer` and store `bytes` at `off`.
Without a buffer (null pointer), and for a store that does not fit the
buffer, nothing is written. -/
def writeIntoBack (off : Nat) (bytes : List Byte) (s : GLYUVRender) : GLYUVRender :=
  match getVideoFrameBuffer s with
  | none => s
  | some p =>
    match s.store p off bytes with
    | none => s
    | some s1 => s1

/-- The calls the decoder and the host make on the widget. `resize` is the
host changing the widget geometry and running the `resizeGL` callback. -/
inductive Op
  | setVideoInfo (nWidth nHeight : Int)
  | createVideoFrameOver
  | clearRenderer
  | write (off : Nat) (bytes : List Byte)
  | resize (w h : Int)

def step (s : GLYUVRender) : Op → Option GLYUVRender
  | .setVideoInfo w h => (setVideoInfo w h s).map Prod.fst
  | .createVideoFrameOver => some (createVideoFrameOver s)
  | .clearRenderer => clearRenderer s
  | .write off bytes => some (writeIntoBack off bytes s)
  | .resize w h => resizeGL w h { s with width := w, height := h }

/-- The state after a sequence of calls, first call first. -/
def run : List Op → GLYUVRender → Option GLYUVRender
  | [], s => some s
  | op :: ops, s =>
    match step s op with
    | none => none
    | some s1 => run ops s1

/-- Whether, after the calls `ops` on a widget for which `c` says if buffers
were configured, the last of the `setVideoInfo` / `clearRenderer` calls is a
`setVideoInfo`. -/
def configuredAfter : List Op → Bool → Bool
  | [], c => c
  | .setVideoInfo _ _ :: ops, _ => configuredAfter ops true
  | .clearRenderer :: ops, _ => configuredAfter ops false
  | _ :: ops, c => configuredAfter ops c

/-- One round of the producer: fill the back buffer with the planes
`Y`, `U`, `V` (contiguously, from the pointer on), then publish. -/
def round (s : GLYUVRender) (f : List Byte × List Byte × List Byte) : GLYUVRender :=
  createVideoFrameOver (writeIntoBack 0 (f.1 ++ f.2.1 ++ f.2.2) s)

/-- Several rounds, first frame first. -/
def rounds (fs : List (List Byte × List Byte × List Byte)) (s : GLYUVRender) :
    GLYUVRender :=
  fs.foldl round s

/-- The size in bytes of the three planes of a `w`×`h` image. -/
def I420Image.total (w h : Int) : Nat := I420Image.ySize w h + 2 * I420Image.cSize w h

/-- Both buffers are allocated, at two different addresses, as `w`×`h` images
whose planes have their full size. -/
def Configured (s : GLYUVRender) (w h : Int) : Prop :=
  ∃ f b imgF imgB, s.m_Front = some f ∧ s.m_Back = some b ∧ f ≠ b ∧
    s.heap f = some imgF ∧ s.heap b = some imgB ∧
    imgF.width = w ∧ imgF.height = h ∧ imgB.width = w ∧ imgB.height = h ∧
    imgF.data.length = I420Image.total w h ∧ imgB.data.length = I420Image.total w h ∧
    f < s.next ∧ b < s.next

/-- The invariant of the reachable states: no buffer at all, or both. -/
def Inv (s : GLYUVRender) : Prop :=
  (s.m_Front = none ∧ s.m_Back = none) ∨ ∃ w h, Configured s w h

/-- Several producer writes in a row, each an offset and the bytes stored
there, with no publish in between. -/
def writes (ws : List (Nat × List Byte)) (s : GLYUVRender) : GLYUVRender :=
  ws.foldl (fun t x => writeIntoBack x.1 x.2 t) s

/-- The factor `2^24 / (2^24 - 1)` that bounds one binary32 rounding of a
normal number, in either direction. -/
def F32.relc : ℚ := 16777216 / 16777215

/-- The positive numbers `a` and `b` agree up to `k` binary32 roundings. -/
def Close (k : ℕ) (a b : ℚ) : Prop :=
  0 < a ∧ 0 < b ∧ a ≤ b * F32.relc ^ k ∧ b ≤ a * F32.relc ^ k

/-- The datum `a` is the positive finite number `v`, with `2^lo ≤ v ≤ 2^hi`. -/
def F32.Pos (a : F32) (v : ℚ) (lo hi : ℤ) : Prop :=
  a = .fin false v ∧ (2 : ℚ) ^ lo ≤ v ∧ v ≤ (2 : ℚ) ^ hi

/-- The datum `a` is finite, of value `v`. -/
def F32.IsVal (a : F32) (v : ℚ) : Prop :=
  ∃ n m, a = .fin n m ∧ 0 ≤ m ∧ v = F32.signed n m

/-- A 6×4 widget holding two 4×2 images, the way `setVideoInfo(4, 2)` leaves
the buffers. -/
def configured42 : GLYUVRender :=
  { GLYUVRender.construct 6 4 with
    heap := fun a => if a = 0 ∨ a = 1 then some (I420Image.create 4 2) else none,
    next := 2, m_Front := some 0, m_Back := some 1 }

theorem inv_construct (w h : Int) : Inv (GLYUVRender.construct w h) :=
  Or.inl ⟨rfl, rfl⟩

theorem create_length (w h : Int) :
    (I420Image.create w h).data.length = I420Image.total w h := by
  simp [I420Image.create, I420Image.total]

theorem store_length {img img1 : I420Image} {off : Nat} {bytes : List Byte}
    (h : img.store off bytes = some img1) :
    img1.width = img.width ∧ img1.height = img.height ∧
      img1.data.length = img.data.length := by
  unfold I420Image.store at h
  split at h
  · rename_i hle
    simp only [Option.some.injEq] at h
    subst h
    refine ⟨rfl, rfl, ?_⟩
    simp only [List.length_append, List.length_take, List.length_drop]
    omega
  · simp at h

theorem clearRenderer_of_inv {s : GLYUVRender} (hs : Inv s) :
    clearRenderer s = some (updateUi { s with
      heap := fun a => if s.m_Front = some a ∨ s.m_Back = some a then none else s.heap a,
      m_Front := none, m_Back := none }) := by
  rcases hs with ⟨hf, hb⟩ | ⟨w, h, f, b, imgF, imgB, hf, hb, hne, hhf, hhb, -⟩
  · obtain ⟨heap, next, fr, bk, wd, ht, mw, mv, mp, po⟩ := s
    simp only at hf hb
    subst hf hb
    simp [clearRenderer]
  · obtain ⟨heap, next, fr, bk, wd, ht, mw, mv, mp, po⟩ := s
    simp only at hf hb hhf hhb
    subst hf hb
    have hne2 : ¬ b = f := fun e => hne e.symm
    simp only [clearRenderer, GLYUVRender.delete, hhf, hhb, hne2, Option.map_some',
      if_false, updateUi, Option.some.injEq, GLYUVRender.mk.injEq, and_true, true_and]
    funext a
    by_cases h1 : a = f
    · subst h1; simp [hne]
    · by_cases h2 : a = b
      · subst h2; simp
      · have h1' : ¬ f = a := fun e => h1 e.symm
        have h2' : ¬ b = a := fun e => h2 e.symm
        simp [h1, h2, h1', h2']

theorem configured_congr {s t : GLYUVRender} {w h : Int} (hh : t.heap = s.heap)
    (hf : t.m_Front = s.m_Front) (hb : t.m_Back = s.m_Back) (hn : t.next = s.next)
    (hs : Configured s w h) : Configured t w h := by
  unfold Configured at *
  rw [hh, hf, hb, hn]
  exact hs

theorem inv_congr {s t : GLYUVRender} (hh : t.heap = s.heap)
    (hf : t.m_Front = s.m_Front) (hb : t.m_Back = s.m_Back) (hn : t.next = s.next)
    (hs : Inv s) : Inv t := by
  rcases hs with ⟨h1, h2⟩ | ⟨w, h, hc⟩
  · exact Or.inl ⟨hf.trans h1, hb.trans h2⟩
  · exact Or.inr ⟨w, h, configured_congr hh hf hb hn hc⟩

theorem resizeGL_null {s : GLYUVRender} (w h : Int) (hf : s.m_Front = none) :
    resizeGL w h s = some { s with
      mWorld := .identity, mView := .lookAt (0, 0, 1) (0, 0, 0) (0, 1, 0),
      mProj := .ortho (F32.div (F32.neg (F32.lit 2)) (F32.ofInt 2))
        (F32.div (F32.lit 2) (F32.ofInt 2)) (F32.div (F32.neg (F32.lit 2)) (F32.ofInt 2))
        (F32.div (F32.lit 2) (F32.ofInt 2)) (F32.neg (F32.lit 1)) (F32.lit 1) } := by
  simp [resizeGL, hf]

theorem resizeGL_front {s : GLYUVRender} (w h : Int) {p : Nat} {img : I420Image}
    (hf : s.m_Front = some p) (hp : s.heap p = some img) :
    ∃ t, resizeGL w h s = some t ∧ t.heap = s.heap ∧ t.m_Front = s.m_Front ∧
      t.m_Back = s.m_Back ∧ t.posted = s.posted ∧ t.width = s.width ∧
      t.height = s.height ∧ t.next = s.next ∧
      t.mProj =
        if F32.gt (F32.div (F32.ofInt w) (F32.ofInt h))
            (F32.div (F32.ofInt img.width) (F32.ofInt img.height)) = true then
          .ortho
            (F32.div (F32.neg (F32.div (F32.mul (F32.ofInt w) (F32.lit 2))
              (F32.mul (F32.div (F32.ofInt img.width) (F32.ofInt img.height)) (F32.ofInt h))))
              (F32.ofInt 2))
            (F32.div (F32.div (F32.mul (F32.ofInt w) (F32.lit 2))
              (F32.mul (F32.div (F32.ofInt img.width) (F32.ofInt img.height)) (F32.ofInt h)))
              (F32.ofInt 2))
            (F32.div (F32.neg (F32.lit 2)) (F32.ofInt 2)) (F32.div (F32.lit 2) (F32.ofInt 2))
            (F32.neg (F32.lit 1)) (F32.lit 1)
        else
          .ortho
            (F32.div (F32.neg (F32.lit 2)) (F32.ofInt 2)) (F32.div (F32.lit 2) (F32.ofInt 2))
            (F32.div (F32.neg (F32.div (F32.mul (F32.ofInt h) (F32.lit 2))
              (F32.mul (F32.div (F32.ofInt 1)
                (F32.div (F32.ofInt img.width) (F32.ofInt img.height))) (F32.ofInt w))))
              (F32.ofInt 2))
            (F32.div (F32.div (F32.mul (F32.ofInt h) (F32.lit 2))
              (F32.mul (F32.div (F32.ofInt 1)
                (F32.div (F32.ofInt img.width) (F32.ofInt img.height))) (F32.ofInt w)))
              (F32.ofInt 2))
            (F32.neg (F32.lit 1)) (F32.lit 1) := by
  simp only [resizeGL, hf, hp, I420Image.GetWidth, I420Image.GetHeight]
  split_ifs <;> exact ⟨_, rfl, rfl, rfl, rfl, rfl, rfl, rfl, rfl, rfl⟩

theorem resizeGL_of_inv {s : GLYUVRender} (w h : Int) (hs : Inv s) :
    ∃ t, resizeGL w h s = some t ∧ t.heap = s.heap ∧ t.m_Front = s.m_Front ∧
      t.m_Back = s.m_Back ∧ t.posted = s.posted ∧ t.width = s.width ∧
      t.height = s.height ∧ t.next = s.next := by
  rcases hs with ⟨hf, -⟩ | ⟨w0, h0, f, b, imgF, imgB, hf, -, -, hhf, -⟩
  · exact ⟨_, resizeGL_null w h hf, rfl, rfl, rfl, rfl, rfl, rfl, rfl⟩
  · obtain ⟨t, ht, h1, h2, h3, h4, h5, h6, h7, -⟩ := resizeGL_front w h hf hhf
    exact ⟨t, ht, h1, h2, h3, h4, h5, h6, h7⟩

/-- The state `setVideoInfo` hands to `resizeGL`: old buffers released, two new
images allocated. -/
theorem setVideoInfo_eq {s : GLYUVRender} (w h : Int) (hs : Inv s) :
    setVideoInfo w h s =
      (resizeGL s.width s.height
        { s with
          heap := fun a =>
            if a = s.next + 1 then some (I420Image.create w h)
            else if a = s.next then some (I420Image.create w h)
            else if s.m_Front = some a ∨ s.m_Back = some a then none else s.heap a,
          next := s.next + 1 + 1,
          m_Front := some s.next, m_Back := some (s.next + 1),
          posted := s.posted ++ [{ x := 0, y := 0, w := s.width, h := s.height }] }).map
        (fun t => (t, PixelFormat.FormatYUV420P)) := by
  simp only [setVideoInfo, clearRenderer_of_inv hs, updateUi, GLYUVRender.new]

theorem setVideoInfo_of_inv {s : GLYUVRender} (w h : Int) (hs : Inv s) :
    ∃ t, setVideoInfo w h s = some (t, PixelFormat.FormatYUV420P) ∧ Configured t w h ∧
      t.m_Front = some s.next ∧ t.m_Back = some (s.next + 1) ∧
      t.heap = (fun a =>
            if a = s.next + 1 then some (I420Image.create w h)
            else if a = s.next then some (I420Image.create w h)
            else if s.m_Front = some a ∨ s.m_Back = some a then none else s.heap a) ∧
      t.posted = s.posted ++ [{ x := 0, y := 0, w := s.width, h := s.height }] ∧
      t.width = s.width ∧ t.height = s.height ∧ t.next = s.next + 2 := by
  have hinv : Inv { s with
          heap := fun a =>
            if a = s.next + 1 then some (I420Image.create w h)
            else if a = s.next then some (I420Image.create w h)
            else if s.m_Front = some a ∨ s.m_Back = some a then none else s.heap a,
          next := s.next + 1 + 1,
          m_Front := some s.next, m_Back := some (s.next + 1),
          posted := s.posted ++ [{ x := 0, y := 0, w := s.width, h := s.height }] } := by
    refine Or.inr ⟨w, h, s.next, s.next + 1, I420Image.create w h, I420Image.create w h,
      rfl, rfl, by omega, ?_, ?_, rfl, rfl, rfl, rfl, create_length w h, create_length w h,
      ?_, ?_⟩
    · simp
    · simp
    · show s.next < s.next + 1 + 1
      omega
    · show s.next + 1 < s.next + 1 + 1
      omega
  obtain ⟨t, ht, h1, h2, h3, h4, h5, h6, h7⟩ := resizeGL_of_inv s.width s.height hinv
  refine ⟨t, ?_, ?_, h2, h3, h1, h4, h5, h6, h7⟩
  · rw [setVideoInfo_eq w h hs, ht]
    rfl
  · rcases hinv with ⟨hf, -⟩ | ⟨w0, h0, hc⟩
    · exact absurd hf (by simp)
    · have hc1 := configured_congr h1 h2 h3 h7 hc
      obtain ⟨f, b, imgF, imgB, e1, e2, e3, e4, e5, e6, e7, e8, e9, e10, e11, e12⟩ := hc
      simp only [Option.some.injEq] at e1 e2
      subst e1 e2
      have e4' : I420Image.create w h = imgF := by simpa using e4
      subst e4'
      have hw : w0 = w := e6.symm
      have hh : h0 = h := e7.symm
      subst hw hh
      exact hc1

theorem createVideoFrameOver_configured {s : GLYUVRender} {w h : Int}
    (hs : Configured s w h) : Configured (createVideoFrameOver s) w h := by
  obtain ⟨f, b, imgF, imgB, e1, e2, e3, e4, e5, e6, e7, e8, e9, e10, e11, e12, e13⟩ := hs
  exact ⟨b, f, imgB, imgF, e2, e1, fun e => e3 e.symm, e5, e4, e8, e9, e6, e7, e11, e10,
    e13, e12⟩

theorem createVideoFrameOver_inv {s : GLYUVRender} (hs : Inv s) :
    Inv (createVideoFrameOver s) := by
  rcases hs with ⟨h1, h2⟩ | ⟨w, h, hc⟩
  · exact Or.inl ⟨h2, h1⟩
  · exact Or.inr ⟨w, h, createVideoFrameOver_configured hc⟩

theorem writeIntoBack_null {s : GLYUVRender} (off : Nat) (bytes : List Byte)
    (hb : s.m_Back = none) : writeIntoBack off bytes s = s := by
  simp [writeIntoBack, getVideoFrameBuffer, hb]

/-- A producer write touches the image behind `m_Back` and nothing else. -/
theorem writeIntoBack_configured {s : GLYUVRender} {w h : Int} (off : Nat)
    (bytes : List Byte) (hs : Configured s w h) :
    Configured (writeIntoBack off bytes s) w h ∧
      (writeIntoBack off bytes s).m_Front = s.m_Front ∧
      (writeIntoBack off bytes s).m_Back = s.m_Back ∧
      (∀ a, s.m_Back ≠ some a → (writeIntoBack off bytes s).heap a = s.heap a) ∧
      (writeIntoBack off bytes s).next = s.next ∧
      (writeIntoBack off bytes s).width = s.width ∧
      (writeIntoBack off bytes s).height = s.height ∧
      (writeIntoBack off bytes s).mWorld = s.mWorld ∧
      (writeIntoBack off bytes s).mView = s.mView ∧
      (writeIntoBack off bytes s).mProj = s.mProj ∧
      (writeIntoBack off bytes s).posted = s.posted := by
  have hs0 := hs
  obtain ⟨f, b, imgF, imgB, e1, e2, e3, e4, e5, e6, e7, e8, e9, e10, e11, e12, e13⟩ := hs
  cases hst : imgB.store off bytes with
  | none =>
    have : writeIntoBack off bytes s = s := by
      simp [writeIntoBack, getVideoFrameBuffer, e2, GLYUVRender.store, I420Image.GetY, e5, hst]
    rw [this]
    exact ⟨hs0, rfl, rfl, fun _ _ => rfl, rfl, rfl, rfl, rfl, rfl, rfl, rfl⟩
  | some img1 =>
    have : writeIntoBack off bytes s =
        { s with heap := fun a => if a = b then some img1 else s.heap a } := by
      simp [writeIntoBack, getVideoFrameBuffer, e2, GLYUVRender.store, I420Image.GetY, e5, hst]
    rw [this]
    obtain ⟨l1, l2, l3⟩ := store_length hst
    refine ⟨⟨f, b, imgF, img1, e1, e2, e3, ?_, ?_, e6, e7, l1.trans e8, l2.trans e9, e10,
      l3.trans e11, e12, e13⟩, rfl, rfl, ?_, rfl, rfl, rfl, rfl, rfl, rfl, rfl⟩
    · simp [e3, e4]
    · simp
    · intro a ha
      have : ¬ a = b := fun e => ha (e ▸ e2)
      simp [this]

theorem writeIntoBack_inv {s : GLYUVRender} (off : Nat) (bytes : List Byte) (hs : Inv s) :
    Inv (writeIntoBack off bytes s) := by
  rcases hs with ⟨h1, h2⟩ | ⟨w, h, hc⟩
  · rw [writeIntoBack_null off bytes h2]
    exact Or.inl ⟨h1, h2⟩
  · exact Or.inr ⟨w, h, (writeIntoBack_configured off bytes hc).1⟩

theorem paintGL_congr {s t : GLYUVRender} (hf : t.m_Front = s.m_Front)
    (hh : ∀ a, s.m_Front = some a → t.heap a = s.heap a) (h1 : t.mWorld = s.mWorld)
    (h2 : t.mView = s.mView) (h3 : t.mProj = s.mProj) : paintGL t = paintGL s := by
  unfold paintGL
  rw [hf, h1, h2, h3]
  cases hfr : s.m_Front with
  | none => rfl
  | some p => simp only [hh p hfr]

theorem step_inv {s : GLYUVRender} (op : Op) (hs : Inv s) :
    ∃ t, step s op = some t ∧ Inv t ∧
      t.m_Front.isSome = configuredAfter [op] s.m_Front.isSome := by
  cases op with
  | setVideoInfo w h =>
    obtain ⟨t, ht, hc, hf, -⟩ := setVideoInfo_of_inv w h hs
    exact ⟨t, by simp [step, ht], Or.inr ⟨w, h, hc⟩, by simp [hf, configuredAfter]⟩
  | createVideoFrameOver =>
    refine ⟨_, rfl, createVideoFrameOver_inv hs, ?_⟩
    rcases hs with ⟨h1, h2⟩ | ⟨w, h, f, b, imgF, imgB, e1, e2, -⟩
    · simp [createVideoFrameOver, updateUi, configuredAfter, h1, h2]
    · simp [createVideoFrameOver, updateUi, configuredAfter, e1, e2]
  | clearRenderer =>
    refine ⟨_, by simpa [step] using clearRenderer_of_inv hs, Or.inl ⟨rfl, rfl⟩, ?_⟩
    simp [updateUi, configuredAfter]
  | write off bytes =>
    refine ⟨_, rfl, writeIntoBack_inv off bytes hs, ?_⟩
    rcases hs with ⟨h1, h2⟩ | ⟨w, h, hc⟩
    · rw [writeIntoBack_null off bytes h2]
      simp [configuredAfter]
    · rw [(writeIntoBack_configured off bytes hc).2.1]
      simp [configuredAfter]
  | resize w h =>
    have hs1 : Inv { s with width := w, height := h } := inv_congr rfl rfl rfl rfl hs
    obtain ⟨t, ht, h1, h2, h3, -, -, -, h7⟩ := resizeGL_of_inv w h hs1
    exact ⟨t, ht, inv_congr h1 h2 h3 h7 hs1, by simp [h2, configuredAfter]⟩

theorem run_inv (ops : List Op) {s : GLYUVRender} (hs : Inv s) :
    ∃ t, run ops s = some t ∧ Inv t ∧
      t.m_Front.isSome = configuredAfter ops s.m_Front.isSome := by
  induction ops generalizing s with
  | nil => exact ⟨s, rfl, hs, rfl⟩
  | cons op ops ih =>
    obtain ⟨s1, h1, hi1, hc1⟩ := step_inv op hs
    obtain ⟨t, h2, hi2, hc2⟩ := ih hi1
    refine ⟨t, by simp [run, h1, h2], hi2, ?_⟩
    rw [hc2, hc1]
    cases op <;> rfl

theorem writes_configured {s : GLYUVRender} {w h : Int} (ws : List (Nat × List Byte))
    (hs : Configured s w h) :
    Configured (writes ws s) w h ∧ paintGL (writes ws s) = paintGL s := by
  induction ws generalizing s with
  | nil => exact ⟨hs, rfl⟩
  | cons x ws ih =>
    obtain ⟨hc, h1, h2, h3, -, -, -, h7, h8, h9, -⟩ := writeIntoBack_configured x.1 x.2 hs
    obtain ⟨hc2, hp⟩ := ih hc
    refine ⟨hc2, ?_⟩
    show paintGL (writes ws (writeIntoBack x.1 x.2 s)) = paintGL s
    rw [hp]
    refine paintGL_congr h1 ?_ h7 h8 h9
    intro a ha
    obtain ⟨f, b, imgF, imgB, e1, e2, e3, -⟩ := hs
    refine h3 a ?_
    rw [e2]
    rw [e1] at ha
    intro e
    simp only [Option.some.injEq] at ha e
    exact e3 (ha.trans e.symm)

theorem writes_null {s : GLYUVRender} (ws : List (Nat × List Byte))
    (hb : s.m_Back = none) : writes ws s = s := by
  induction ws with
  | nil => rfl
  | cons x ws ih =>
    show writes ws (writeIntoBack x.1 x.2 s) = s
    rw [writeIntoBack_null x.1 x.2 hb, ih]

theorem paintGL_null {s : GLYUVRender} (hf : s.m_Front = none) :
    paintGL s = some clearOnly := by
  simp [paintGL, hf, clearOnly]

theorem paintGL_front {s : GLYUVRender} {p : Nat} {img : I420Image}
    (hf : s.m_Front = some p) (hp : s.heap p = some img) :
    ∃ tr, paintGL s = some tr ∧
      uploadedPlanes tr =
        [ img.read 0 (I420Image.ySize img.width img.height),
          img.read (I420Image.ySize img.width img.height)
            (I420Image.cSize img.width img.height),
          img.read (I420Image.ySize img.width img.height +
            I420Image.cSize img.width img.height) (I420Image.cSize img.width img.height) ] ∧
      drawCalls tr = 1 := by
  unfold paintGL
  simp only [hf, hp]
  refine ⟨_, rfl, ?_, ?_⟩
  · simp [uploadedPlanes, I420Image.GetY, I420Image.GetU, I420Image.GetV,
      I420Image.GetWidth, I420Image.GetHeight, I420Image.ySize, I420Image.cSize]
  · simp [drawCalls]

theorem store_full (img : I420Image) (bytes : List Byte)
    (h : bytes.length = img.data.length) :
    img.store (0 + 0) bytes = some { img with data := bytes } := by
  unfold I420Image.store
  rw [if_pos (by omega)]
  simp
  omega

theorem read_planes (w h : Int) (img : I420Image) (Y U V : List Byte)
    (hd : img.data = Y ++ U ++ V) (hY : Y.length = I420Image.ySize w h)
    (hU : U.length = I420Image.cSize w h) (hV : V.length = I420Image.cSize w h) :
    img.read 0 (I420Image.ySize w h) = Y ∧
      img.read (I420Image.ySize w h) (I420Image.cSize w h) = U ∧
      img.read (I420Image.ySize w h + I420Image.cSize w h) (I420Image.cSize w h) = V := by
  unfold I420Image.read
  rw [hd]
  refine ⟨?_, ?_, ?_⟩
  · rw [List.drop_zero, List.append_assoc]
    exact List.take_left' hY
  · rw [← hY, List.append_assoc, List.drop_left' rfl]
    exact List.take_left' hU
  · have e : I420Image.ySize w h + I420Image.cSize w h = (Y ++ U).length := by
      rw [List.length_append, hY, hU]
    rw [e, List.drop_left' rfl, ← hV]
    exact List.take_length V

/-- After one full round the render step uploads the planes just written. -/
theorem round_uploads {s : GLYUVRender} {w h : Int} (Y U V : List Byte)
    (hs : Configured s w h) (hY : Y.length = I420Image.ySize w h)
    (hU : U.length = I420Image.cSize w h) (hV : V.length = I420Image.cSize w h) :
    ∃ tr, paintGL (round s (Y, U, V)) = some tr ∧ uploadedPlanes tr = [Y, U, V] := by
  obtain ⟨f, b, imgF, imgB, e1, e2, e3, e4, e5, e6, e7, e8, e9, e10, e11, e12, e13⟩ := hs
  have hlen : (Y ++ U ++ V).length = imgB.data.length := by
    rw [e11]
    simp only [List.length_append, I420Image.total, hY, hU, hV]
    omega
  have hw : writeIntoBack 0 (Y ++ U ++ V) s =
      { s with heap := fun a =>
          if a = b then some { imgB with data := Y ++ U ++ V } else s.heap a } := by
    simp only [writeIntoBack, getVideoFrameBuffer, e2, GLYUVRender.store, I420Image.GetY,
      e5, store_full imgB (Y ++ U ++ V) hlen]
  have hfront : (round s (Y, U, V)).m_Front = some b := by
    show (createVideoFrameOver (writeIntoBack 0 (Y ++ U ++ V) s)).m_Front = some b
    rw [hw]
    exact e2
  have hheap : (round s (Y, U, V)).heap b = some { imgB with data := Y ++ U ++ V } := by
    show (createVideoFrameOver (writeIntoBack 0 (Y ++ U ++ V) s)).heap b = _
    rw [hw]
    simp [createVideoFrameOver, updateUi]
  obtain ⟨tr, htr, hup, -⟩ := paintGL_front hfront hheap
  refine ⟨tr, htr, ?_⟩
  rw [hup]
  simp only [e8, e9]
  obtain ⟨r1, r2, r3⟩ :=
    read_planes w h { width := w, height := h, data := Y ++ U ++ V } Y U V rfl hY hU hV
  rw [r1, r2, r3]

theorem round_configured {s : GLYUVRender} {w h : Int}
    (x : List Byte × List Byte × List Byte) (hs : Configured s w h) :
    Configured (round s x) w h :=
  createVideoFrameOver_configured (writeIntoBack_configured 0 _ hs).1

theorem rounds_configured {s : GLYUVRender} {w h : Int}
    (fs : List (List Byte × List Byte × List Byte)) (hs : Configured s w h) :
    Configured (rounds fs s) w h := by
  induction fs generalizing s with
  | nil => exact hs
  | cons x fs ih => exact ih (round_configured x hs)

theorem rounds_snoc (fs : List (List Byte × List Byte × List Byte))
    (x : List Byte × List Byte × List Byte) (s : GLYUVRender) :
    rounds (fs ++ [x]) s = round (rounds fs s) x := by
  simp [rounds, List.foldl_append]

theorem drawCalls_clearOnly : drawCalls clearOnly = 0 := by
  simp [drawCalls, clearOnly]

theorem paintGL_configured {s : GLYUVRender} {w h : Int} (hs : Configured s w h) :
    ∃ tr, paintGL s = some tr ∧ (uploadedPlanes tr).length = 3 ∧ drawCalls tr = 1 ∧
      tr ≠ clearOnly := by
  obtain ⟨f, b, imgF, imgB, e1, e2, e3, e4, -⟩ := hs
  obtain ⟨tr, htr, hup, hd⟩ := paintGL_front e1 e4
  refine ⟨tr, htr, by rw [hup]; rfl, hd, ?_⟩
  intro e
  rw [e, drawCalls_clearOnly] at hd
  exact absurd hd (by decide)

theorem roundEven_err (y : ℚ) : |(roundEven y : ℚ) - y| ≤ 1 / 2 := by
  have h1 : (⌊y⌋ : ℚ) ≤ y := Int.floor_le y
  have h2 : y < (⌊y⌋ : ℚ) + 1 := Int.lt_floor_add_one y
  unfold roundEven
  split_ifs with a b c
  · rw [abs_le]; constructor <;> linarith
  · rw [abs_le]; push_cast; constructor <;> linarith
  · rw [abs_le]; constructor <;> linarith
  · rw [abs_le]; push_cast; constructor <;> linarith

theorem roundEven_eq_of {y : ℚ} {n : ℤ} (h1 : (n : ℚ) - 1 / 2 < y)
    (h2 : y < (n : ℚ) + 1 / 2) : roundEven y = n := by
  have e := roundEven_err y
  rw [abs_le] at e
  have h3 : ((roundEven y : ℤ) : ℚ) < (n : ℚ) + 1 := by linarith
  have h4 : (n : ℚ) - 1 < ((roundEven y : ℤ) : ℚ) := by linarith
  have h5 : roundEven y < n + 1 := by exact_mod_cast h3
  have h6 : n - 1 < roundEven y := by exact_mod_cast h4
  omega

theorem roundEven_tie {y : ℚ} {f n : ℤ} (hy : y = (f : ℚ) + 1 / 2) (hn : n = f ∨ n = f + 1)
    (he : n % 2 = 0) : roundEven y = n := by
  have hf : ⌊y⌋ = f := by
    rw [Int.floor_eq_iff, hy]
    constructor <;> linarith
  unfold roundEven
  rw [hf, hy]
  have e1 : (f : ℚ) + 1 / 2 - (f : ℚ) = 1 / 2 := by ring
  rw [e1, if_neg (lt_irrefl _), if_neg (lt_irrefl _)]
  rcases hn with h | h
  · subst h
    rw [if_pos he]
  · have : ¬ f % 2 = 0 := by omega
    rw [if_neg this, h]

theorem roundEven_nonneg {y : ℚ} (hy : 0 ≤ y) : 0 ≤ roundEven y := by
  have h1 : 0 ≤ ⌊y⌋ := Int.floor_nonneg.2 hy
  unfold roundEven
  split_ifs <;> omega

theorem roundEven_zero : roundEven 0 = 0 :=
  roundEven_eq_of (by norm_num) (by norm_num)

theorem expo_eq {x : ℚ} {e : ℤ} (he : -126 ≤ e) (h1 : (2 : ℚ) ^ e ≤ x)
    (h2 : x < (2 : ℚ) ^ (e + 1)) : F32.expo x = e := by
  have hx : 0 < x := lt_of_lt_of_le (by positivity) h1
  have a : e ≤ Int.log 2 x :=
    (Int.zpow_le_iff_le_log (by norm_num) hx).1 (by exact_mod_cast h1)
  have b : Int.log 2 x < e + 1 :=
    (Int.lt_zpow_iff_log_lt (by norm_num) hx).1 (by exact_mod_cast h2)
  unfold F32.expo
  omega

theorem expo_ge (x : ℚ) : -126 ≤ F32.expo x := le_max_right _ _

theorem expo_normal {x : ℚ} (hx : (2 : ℚ) ^ (-126 : ℤ) ≤ x) :
    (2 : ℚ) ^ F32.expo x ≤ x := by
  have hx0 : 0 < x := lt_of_lt_of_le (by positivity) hx
  have a : (-126 : ℤ) ≤ Int.log 2 x :=
    (Int.zpow_le_iff_le_log (by norm_num) hx0).1 (by exact_mod_cast hx)
  have e : F32.expo x = Int.log 2 x := max_eq_left a
  rw [e]
  exact_mod_cast Int.zpow_log_le_self (by norm_num) hx0

theorem expo_le {x : ℚ} {e : ℤ} (he : -126 ≤ e) (h2 : x < (2 : ℚ) ^ (e + 1)) (hx : 0 < x) :
    F32.expo x ≤ e := by
  have b : Int.log 2 x < e + 1 :=
    (Int.lt_zpow_iff_log_lt (by norm_num) hx).1 (by exact_mod_cast h2)
  unfold F32.expo
  omega

theorem rnd_zero : F32.rnd 0 = 0 := by
  simp [F32.rnd, roundEven_zero]

theorem rnd_nonneg {x : ℚ} (hx : 0 ≤ x) : 0 ≤ F32.rnd x := by
  unfold F32.rnd
  have h1 : 0 ≤ x / (2 : ℚ) ^ (F32.expo x - 23) := by positivity
  have h2 : (0 : ℚ) ≤ (roundEven (x / (2 : ℚ) ^ (F32.expo x - 23)) : ℚ) := by
    exact_mod_cast roundEven_nonneg h1
  positivity

/-- The rounding error is at most half a quantum. -/
theorem rnd_err (x : ℚ) : |F32.rnd x - x| ≤ (2 : ℚ) ^ (F32.expo x - 24) := by
  have hq : (0 : ℚ) < (2 : ℚ) ^ (F32.expo x - 23) := by positivity
  have h := roundEven_err (x / (2 : ℚ) ^ (F32.expo x - 23))
  have e1 : F32.rnd x - x =
      ((roundEven (x / (2 : ℚ) ^ (F32.expo x - 23)) : ℚ) - x / (2 : ℚ) ^ (F32.expo x - 23)) *
        (2 : ℚ) ^ (F32.expo x - 23) := by
    unfold F32.rnd
    field_simp
  have e2 : (2 : ℚ) ^ (F32.expo x - 24) = 1 / 2 * (2 : ℚ) ^ (F32.expo x - 23) := by
    have : F32.expo x - 23 = (F32.expo x - 24) + 1 := by ring
    rw [this, zpow_add_one₀ (by norm_num)]
    ring
  rw [e1, e2, abs_mul, abs_of_pos hq]
  exact mul_le_mul_of_nonneg_right h hq.le

theorem rnd_abs {x : ℚ} {e : ℤ} (he : -126 ≤ e) (hx : 0 ≤ x) (h2 : x < (2 : ℚ) ^ (e + 1)) :
    |F32.rnd x - x| ≤ (2 : ℚ) ^ (e - 24) := by
  rcases hx.eq_or_lt with h0 | h0
  · rw [← h0, rnd_zero]
    simp only [sub_zero, abs_zero]
    positivity
  · refine (rnd_err x).trans ?_
    exact zpow_le_zpow_right₀ (by norm_num) (by have := expo_le he h2 h0; omega)

theorem rnd_rel {x : ℚ} (hx : (2 : ℚ) ^ (-126 : ℤ) ≤ x) :
    |F32.rnd x - x| ≤ x / 16777216 := by
  refine (rnd_err x).trans ?_
  have h := expo_normal hx
  have e : (2 : ℚ) ^ (F32.expo x - 24) = (2 : ℚ) ^ F32.expo x / 16777216 := by
    rw [zpow_sub₀ (by norm_num)]
    norm_num
  rw [e]
  exact div_le_div_of_nonneg_right h (by norm_num)

theorem rnd_eval {x : ℚ} (e n : ℤ) (he : -126 ≤ e) (h1 : (2 : ℚ) ^ e ≤ x)
    (h2 : x < (2 : ℚ) ^ (e + 1)) (h3 : (n : ℚ) - 1 / 2 < x / (2 : ℚ) ^ (e - 23))
    (h4 : x / (2 : ℚ) ^ (e - 23) < (n : ℚ) + 1 / 2) :
    F32.rnd x = (n : ℚ) * (2 : ℚ) ^ (e - 23) := by
  unfold F32.rnd
  rw [expo_eq he h1 h2, roundEven_eq_of h3 h4]

/-- Evaluation of one rounding: `x` lies in the binade `e` and `n` is the
nearest multiple of the quantum. -/
theorem round_eq (neg : Bool) {x : ℚ} (r : ℚ) (e n : ℤ) (he : -126 ≤ e)
    (h1 : (2 : ℚ) ^ e ≤ x) (h2 : x < (2 : ℚ) ^ (e + 1))
    (h3 : (n : ℚ) - 1 / 2 < x / (2 : ℚ) ^ (e - 23))
    (h4 : x / (2 : ℚ) ^ (e - 23) < (n : ℚ) + 1 / 2)
    (hr : r = (n : ℚ) * (2 : ℚ) ^ (e - 23)) (hov : r < 2 ^ 128) :
    F32.round neg x = .fin neg r := by
  unfold F32.round
  rw [rnd_eval e n he h1 h2 h3 h4, ← hr, if_pos hov]

/-- Evaluation of one rounding that falls half-way between two neighbours. -/
theorem round_eq_tie (neg : Bool) {x : ℚ} (r : ℚ) (e f n : ℤ) (he : -126 ≤ e)
    (h1 : (2 : ℚ) ^ e ≤ x) (h2 : x < (2 : ℚ) ^ (e + 1))
    (h3 : x / (2 : ℚ) ^ (e - 23) = (f : ℚ) + 1 / 2) (hn : n = f ∨ n = f + 1)
    (hpar : n % 2 = 0) (hr : r = (n : ℚ) * (2 : ℚ) ^ (e - 23)) (hov : r < 2 ^ 128) :
    F32.round neg x = .fin neg r := by
  unfold F32.round F32.rnd
  rw [expo_eq he h1 h2, roundEven_tie h3 hn hpar, ← hr, if_pos hov]

theorem round_zero (neg : Bool) : F32.round neg 0 = .fin neg 0 := by
  simp [F32.round, rnd_zero]

theorem div_fin (n1 n2 : Bool) (m1 : ℚ) {m2 : ℚ} (h : m2 ≠ 0) :
    F32.div (.fin n1 m1) (.fin n2 m2) = F32.round (n1 != n2) (m1 / m2) := by
  simp [F32.div, h]

theorem mul_fin (n1 n2 : Bool) (m1 m2 : ℚ) :
    F32.mul (.fin n1 m1) (.fin n2 m2) = F32.round (n1 != n2) (m1 * m2) := rfl

theorem relc_pos : 0 < F32.relc := by norm_num [F32.relc]

theorem one_le_relc : 1 ≤ F32.relc := by norm_num [F32.relc]

theorem close_refl {a : ℚ} (ha : 0 < a) : Close 0 a a :=
  ⟨ha, ha, by simp, by simp⟩

theorem close_symm {k : ℕ} {a b : ℚ} (h : Close k a b) : Close k b a :=
  ⟨h.2.1, h.1, h.2.2.2, h.2.2.1⟩

theorem close_mono {j k : ℕ} {a b : ℚ} (hjk : j ≤ k) (h : Close j a b) : Close k a b := by
  obtain ⟨ha, hb, h1, h2⟩ := h
  have hp : F32.relc ^ j ≤ F32.relc ^ k := pow_le_pow_right₀ one_le_relc hjk
  exact ⟨ha, hb, h1.trans (mul_le_mul_of_nonneg_left hp hb.le),
    h2.trans (mul_le_mul_of_nonneg_left hp ha.le)⟩

theorem close_trans {j k : ℕ} {a b c : ℚ} (h1 : Close j a b) (h2 : Close k b c) :
    Close (j + k) a c := by
  obtain ⟨ha, hb, a1, a2⟩ := h1
  obtain ⟨-, hc, b1, b2⟩ := h2
  have hj : 0 < F32.relc ^ j := pow_pos relc_pos j
  refine ⟨ha, hc, ?_, ?_⟩
  · calc a ≤ b * F32.relc ^ j := a1
      _ ≤ c * F32.relc ^ k * F32.relc ^ j := mul_le_mul_of_nonneg_right b1 hj.le
      _ = c * F32.relc ^ (j + k) := by rw [pow_add]; ring
  · have hk : 0 < F32.relc ^ k := pow_pos relc_pos k
    calc c ≤ b * F32.relc ^ k := b2
      _ ≤ a * F32.relc ^ j * F32.relc ^ k := mul_le_mul_of_nonneg_right a2 hk.le
      _ = a * F32.relc ^ (j + k) := by rw [pow_add]; ring

theorem close_mul {j k : ℕ} {a b c d : ℚ} (h1 : Close j a b) (h2 : Close k c d) :
    Close (j + k) (a * c) (b * d) := by
  obtain ⟨ha, hb, a1, a2⟩ := h1
  obtain ⟨hc, hd, b1, b2⟩ := h2
  refine ⟨mul_pos ha hc, mul_pos hb hd, ?_, ?_⟩
  · calc a * c ≤ b * F32.relc ^ j * (d * F32.relc ^ k) :=
        mul_le_mul a1 b1 hc.le (le_trans ha.le a1)
      _ = b * d * F32.relc ^ (j + k) := by rw [pow_add]; ring
  · calc b * d ≤ a * F32.relc ^ j * (c * F32.relc ^ k) :=
        mul_le_mul a2 b2 hd.le (le_trans hb.le a2)
      _ = a * c * F32.relc ^ (j + k) := by rw [pow_add]; ring

theorem close_inv {k : ℕ} {a b : ℚ} (h : Close k a b) : Close k a⁻¹ b⁻¹ := by
  obtain ⟨ha, hb, a1, a2⟩ := h
  have hk : 0 < F32.relc ^ k := pow_pos relc_pos k
  refine ⟨inv_pos.2 ha, inv_pos.2 hb, ?_, ?_⟩
  · rw [inv_mul_eq_div, le_div_iff₀ hb, inv_mul_le_iff₀ ha]
    linarith
  · rw [inv_mul_eq_div, le_div_iff₀ ha, inv_mul_le_iff₀ hb]
    linarith

theorem close_div {j k : ℕ} {a b c d : ℚ} (h1 : Close j a b) (h2 : Close k c d) :
    Close (j + k) (a / c) (b / d) := by
  rw [div_eq_mul_inv, div_eq_mul_inv]
  exact close_mul h1 (close_inv h2)

theorem close_rnd {x : ℚ} (hx : (2 : ℚ) ^ (-126 : ℤ) ≤ x) : Close 1 (F32.rnd x) x := by
  have hx0 : 0 < x := lt_of_lt_of_le (by positivity) hx
  have h := rnd_rel hx
  rw [abs_le] at h
  obtain ⟨h1, h2⟩ := h
  refine ⟨by linarith, hx0, ?_, ?_⟩
  · simp only [F32.relc, pow_one]
    linarith
  · simp only [F32.relc, pow_one]
    linarith

theorem round_neg (neg : Bool) (x : ℚ) : F32.neg (F32.round neg x) = F32.round (!neg) x := by
  unfold F32.round
  split_ifs <;> rfl

theorem pos_round {x : ℚ} {lo hi : ℤ} (hlo : (2 : ℚ) ^ lo ≤ x) (hhi : x ≤ (2 : ℚ) ^ hi)
    (h1 : -126 ≤ lo) (h2 : hi ≤ 126) (neg : Bool) :
    ∃ r, r = F32.rnd x ∧ F32.round neg x = .fin neg r ∧ (2 : ℚ) ^ (lo - 1) ≤ r ∧
      r ≤ (2 : ℚ) ^ (hi + 1) ∧ Close 1 r x := by
  have hx : (2 : ℚ) ^ (-126 : ℤ) ≤ x :=
    le_trans (zpow_le_zpow_right₀ (by norm_num) h1) hlo
  have hc := close_rnd hx
  obtain ⟨c1, c2, c3, c4⟩ := hc
  simp only [F32.relc, pow_one] at c3 c4
  have hup : F32.rnd x ≤ (2 : ℚ) ^ (hi + 1) := by
    rw [zpow_add_one₀ (by norm_num)]
    linarith
  have hdn : (2 : ℚ) ^ (lo - 1) ≤ F32.rnd x := by
    rw [zpow_sub_one₀ (by norm_num)]
    have : (2 : ℚ) ^ lo * 2⁻¹ = (2 : ℚ) ^ lo / 2 := by ring
    rw [this]
    linarith
  have hov : F32.rnd x < 2 ^ 128 := by
    have h3 : (2 : ℚ) ^ (hi + 1) ≤ (2 : ℚ) ^ (127 : ℤ) :=
      zpow_le_zpow_right₀ (by norm_num) (by omega)
    have h4 : (2 : ℚ) ^ (127 : ℤ) < 2 ^ 128 := by norm_num
    linarith
  refine ⟨F32.rnd x, rfl, ?_, hdn, hup, close_rnd hx⟩
  unfold F32.round
  rw [if_pos hov]

theorem pos_mul {a b : F32} {va vb : ℚ} {l1 h1 l2 h2 : ℤ} (ha : F32.Pos a va l1 h1)
    (hb : F32.Pos b vb l2 h2) (hl : -126 ≤ l1 + l2) (hh : h1 + h2 ≤ 126) :
    ∃ r, r = F32.rnd (va * vb) ∧ F32.Pos (F32.mul a b) r (l1 + l2 - 1) (h1 + h2 + 1) ∧
      Close 1 r (va * vb) := by
  obtain ⟨rfl, a1, a2⟩ := ha
  obtain ⟨rfl, b1, b2⟩ := hb
  have p1 : (0 : ℚ) < (2 : ℚ) ^ l1 := by positivity
  have p2 : (0 : ℚ) < (2 : ℚ) ^ l2 := by positivity
  have hlo : (2 : ℚ) ^ (l1 + l2) ≤ va * vb := by
    rw [zpow_add₀ (by norm_num)]
    exact mul_le_mul a1 b1 p2.le (le_trans p1.le a1)
  have hhi : va * vb ≤ (2 : ℚ) ^ (h1 + h2) := by
    rw [zpow_add₀ (by norm_num)]
    exact mul_le_mul a2 b2 (le_trans p2.le b1) (by positivity)
  obtain ⟨r, er, e, r1, r2, rc⟩ := pos_round hlo hhi hl hh false
  exact ⟨r, er, ⟨e, r1, r2⟩, rc⟩

theorem pos_div {a b : F32} {va vb : ℚ} {l1 h1 l2 h2 : ℤ} (ha : F32.Pos a va l1 h1)
    (hb : F32.Pos b vb l2 h2) (hl : -126 ≤ l1 - h2) (hh : h1 - l2 ≤ 126) :
    ∃ r, r = F32.rnd (va / vb) ∧ F32.Pos (F32.div a b) r (l1 - h2 - 1) (h1 - l2 + 1) ∧
      Close 1 r (va / vb) := by
  obtain ⟨rfl, a1, a2⟩ := ha
  obtain ⟨rfl, b1, b2⟩ := hb
  have p1 : (0 : ℚ) < (2 : ℚ) ^ l1 := by positivity
  have p2 : (0 : ℚ) < (2 : ℚ) ^ l2 := by positivity
  have hva : 0 < va := lt_of_lt_of_le p1 a1
  have hvb : 0 < vb := lt_of_lt_of_le p2 b1
  have hlo : (2 : ℚ) ^ (l1 - h2) ≤ va / vb := by
    rw [zpow_sub₀ (by norm_num)]
    exact div_le_div₀ hva.le a1 hvb b2
  have hhi : va / vb ≤ (2 : ℚ) ^ (h1 - l2) := by
    rw [zpow_sub₀ (by norm_num)]
    exact div_le_div₀ (by positivity) a2 p2 b1
  obtain ⟨r, er, e, r1, r2, rc⟩ := pos_round hlo hhi hl hh false
  refine ⟨r, er, ⟨?_, r1, r2⟩, rc⟩
  rw [div_fin false false va hvb.ne']
  exact e

theorem pos_div_lo {a b : F32} {va vb : ℚ} {l1 h1 l2 h2 : ℤ} (ha : F32.Pos a va l1 h1)
    (hb : F32.Pos b vb l2 h2) : (2 : ℚ) ^ (l1 - h2) ≤ va / vb := by
  obtain ⟨_, a1, _⟩ := ha
  obtain ⟨_, b1, b2⟩ := hb
  have p1 : (0 : ℚ) < (2 : ℚ) ^ l1 := by positivity
  have p2 : (0 : ℚ) < (2 : ℚ) ^ l2 := by positivity
  rw [zpow_sub₀ (by norm_num)]
  exact div_le_div₀ (lt_of_lt_of_le p1 a1).le a1 (lt_of_lt_of_le p2 b1) b2

theorem pos_ofInt {n : Int} (h1 : 0 < n) (h2 : n < 2 ^ 31) :
    ∃ r, r = F32.rnd (n : ℚ) ∧ F32.Pos (F32.ofInt n) r (-1) 32 ∧ Close 1 r (n : ℚ) := by
  have hn1 : (1 : ℚ) ≤ (n : ℚ) := by exact_mod_cast h1
  have hn2 : (n : ℚ) ≤ 2 ^ 31 := by exact_mod_cast h2.le
  have hlo : (2 : ℚ) ^ (0 : ℤ) ≤ |(n : ℚ)| := by
    rw [abs_of_pos (by linarith)]
    simpa using hn1
  have hhi : |(n : ℚ)| ≤ (2 : ℚ) ^ (31 : ℤ) := by
    rw [abs_of_pos (by linarith)]
    exact_mod_cast hn2
  obtain ⟨r, er, e, r1, r2, rc⟩ :=
    pos_round hlo hhi (by norm_num) (by norm_num) (decide (n < 0))
  have hneg : decide (n < 0) = false := by
    simp only [decide_eq_false_iff_not, not_lt]
    omega
  rw [hneg] at e
  rw [abs_of_pos (by linarith)] at rc er
  refine ⟨r, er, ⟨?_, by simpa using r1, by simpa using r2⟩, rc⟩
  unfold F32.ofInt
  rw [hneg]
  exact e

theorem gt_fin (m1 m2 : ℚ) :
    F32.gt (.fin false m1) (.fin false m2) = decide (m2 < m1) := rfl

theorem lit_two : F32.lit 2 = .fin false 2 :=
  round_eq false 2 1 8388608 (by norm_num) (by norm_num) (by norm_num) (by norm_num)
    (by norm_num) (by norm_num) (by norm_num)

theorem lit_one : F32.lit 1 = .fin false 1 :=
  round_eq false 1 0 8388608 (by norm_num) (by norm_num) (by norm_num) (by norm_num)
    (by norm_num) (by norm_num) (by norm_num)

theorem ofInt_two : F32.ofInt 2 = .fin false 2 := by
  have : F32.ofInt 2 = F32.lit 2 := by simp [F32.ofInt, F32.lit]
  rw [this, lit_two]

theorem ofInt_one : F32.ofInt 1 = .fin false 1 := by
  have : F32.ofInt 1 = F32.lit 1 := by simp [F32.ofInt, F32.lit]
  rw [this, lit_one]

theorem ofInt_zero : F32.ofInt 0 = .fin false 0 := by
  simp [F32.ofInt, round_zero]

theorem round_one (neg : Bool) : F32.round neg 1 = .fin neg 1 :=
  round_eq neg 1 0 8388608 (by norm_num) (by norm_num) (by norm_num) (by norm_num)
    (by norm_num) (by norm_num) (by norm_num)

/-- Consequence of `k` roundings for the distance. -/
theorem close_abs {k : ℕ} {a b ε : ℚ} (h : Close k a b) (hε : F32.relc ^ k ≤ 1 + ε)
    (hε0 : 0 ≤ ε) : |a - b| ≤ ε * b := by
  obtain ⟨ha, hb, h1, h2⟩ := h
  have h3 : a ≤ b * (1 + ε) := h1.trans (mul_le_mul_of_nonneg_left hε hb.le)
  have h4 : b ≤ a * (1 + ε) := h2.trans (mul_le_mul_of_nonneg_left hε ha.le)
  rw [abs_le]
  constructor
  · nlinarith
  · linarith

theorem relc_pow_10 : F32.relc ^ 10 ≤ 1 + 1 / 2 ^ 20 := by
  norm_num [F32.relc]

theorem relc_pow_6 : F32.relc ^ 6 ≤ 1 + 1 / (2 ^ 21 - 1) := by
  norm_num [F32.relc]

theorem ofInt_pos {n : Int} (h : 0 < n) : F32.ofInt n = F32.round false (n : ℚ) := by
  have hn : (0 : ℚ) < (n : ℚ) := by exact_mod_cast h
  have hneg : decide (n < 0) = false := by
    simp only [decide_eq_false_iff_not, not_lt]
    omega
  unfold F32.ofInt
  rw [hneg, abs_of_pos hn]

theorem signed_abs (n : Bool) {m : ℚ} (hm : 0 ≤ m) : |F32.signed n m| = m := by
  cases n
  · simp [F32.signed, abs_of_nonneg hm]
  · simp [F32.signed, abs_of_nonneg hm]

theorem signed_mul (n1 n2 : Bool) (m1 m2 : ℚ) :
    F32.signed (n1 != n2) (m1 * m2) = F32.signed n1 m1 * F32.signed n2 m2 := by
  cases n1 <;> cases n2 <;> simp [F32.signed]

theorem signed_sub_signed (n : Bool) (a b : ℚ) :
    |F32.signed n a - F32.signed n b| = |a - b| := by
  cases n
  · simp [F32.signed]
  · simp only [F32.signed, if_true]
    rw [show -a - -b = -(a - b) by ring, abs_neg]

theorem isVal_toRat {a : F32} {v : ℚ} (h : F32.IsVal a v) : a.toRat = some v := by
  obtain ⟨n, m, rfl, -, rfl⟩ := h
  rfl

theorem isVal_fin {m : ℚ} (hm : 0 ≤ m) : F32.IsVal (.fin false m) m :=
  ⟨false, m, rfl, hm, rfl⟩

theorem isVal_neg {a : F32} {v : ℚ} (h : F32.IsVal a v) : F32.IsVal (F32.neg a) (-v) := by
  obtain ⟨n, m, rfl, hm, rfl⟩ := h
  refine ⟨!n, m, rfl, hm, ?_⟩
  cases n <;> simp [F32.signed]

/-- One rounding of a magnitude below `2^(e+1)`: finite, with absolute error
at most `2^(e-24)`. -/
theorem val_round (neg : Bool) {x : ℚ} {e : ℤ} (he : -126 ≤ e) (he2 : e ≤ 126)
    (hx0 : 0 ≤ x) (hx : x < (2 : ℚ) ^ (e + 1)) :
    ∃ r, F32.round neg x = .fin neg r ∧ 0 ≤ r ∧ |r - x| ≤ (2 : ℚ) ^ (e - 24) := by
  have herr := rnd_abs he hx0 hx
  have hov : F32.rnd x < 2 ^ 128 := by
    have h1 := (abs_le.1 herr).2
    have h2 : (2 : ℚ) ^ (e - 24) ≤ (2 : ℚ) ^ (e + 1) :=
      zpow_le_zpow_right₀ (by norm_num) (by omega)
    have h3 : (2 : ℚ) ^ (e + 1) ≤ (2 : ℚ) ^ (127 : ℤ) :=
      zpow_le_zpow_right₀ (by norm_num) (by omega)
    have h4 : (2 : ℚ) ^ (127 : ℤ) + (2 : ℚ) ^ (127 : ℤ) = 2 ^ 128 := by norm_num
    linarith
  refine ⟨F32.rnd x, ?_, rnd_nonneg hx0, herr⟩
  unfold F32.round
  rw [if_pos hov]

theorem isVal_lit {x : ℚ} {e : ℤ} (he : -126 ≤ e) (he2 : e ≤ 126) (hx0 : 0 ≤ x)
    (hx : x < (2 : ℚ) ^ (e + 1)) :
    ∃ r, F32.IsVal (F32.lit x) r ∧ |r - x| ≤ (2 : ℚ) ^ (e - 24) := by
  obtain ⟨r, e1, r0, re⟩ := val_round false he he2 hx0 hx
  exact ⟨r, ⟨false, r, e1, r0, rfl⟩, re⟩

theorem isVal_mul {a b : F32} {va vb : ℚ} {e : ℤ} (he : -126 ≤ e) (he2 : e ≤ 126)
    (ha : F32.IsVal a va) (hb : F32.IsVal b vb) (h : |va * vb| < (2 : ℚ) ^ (e + 1)) :
    ∃ r, F32.IsVal (F32.mul a b) r ∧ |r - va * vb| ≤ (2 : ℚ) ^ (e - 24) := by
  obtain ⟨n1, m1, rfl, hm1, rfl⟩ := ha
  obtain ⟨n2, m2, rfl, hm2, rfl⟩ := hb
  rw [← signed_mul, signed_abs _ (mul_nonneg hm1 hm2)] at h
  obtain ⟨r, e1, r0, re⟩ := val_round (n1 != n2) he he2 (mul_nonneg hm1 hm2) h
  refine ⟨F32.signed (n1 != n2) r, ⟨n1 != n2, r, e1, r0, rfl⟩, ?_⟩
  rw [← signed_mul, signed_sub_signed]
  exact re

theorem isVal_add {a b : F32} {va vb : ℚ} {e : ℤ} (he : -126 ≤ e) (he2 : e ≤ 126)
    (ha : F32.IsVal a va) (hb : F32.IsVal b vb) (h : |va + vb| < (2 : ℚ) ^ (e + 1)) :
    ∃ r, F32.IsVal (F32.add a b) r ∧ |r - (va + vb)| ≤ (2 : ℚ) ^ (e - 24) := by
  obtain ⟨n1, m1, rfl, hm1, rfl⟩ := ha
  obtain ⟨n2, m2, rfl, hm2, rfl⟩ := hb
  by_cases h0 : F32.signed n1 m1 + F32.signed n2 m2 = 0
  · refine ⟨0, ⟨n1 && n2, 0, ?_, le_refl 0, ?_⟩, ?_⟩
    · simp [F32.add, h0]
    · cases (n1 && n2) <;> simp [F32.signed]
    · rw [h0]
      simp only [sub_zero, abs_zero]
      positivity
  · obtain ⟨r, e1, r0, re⟩ := val_round
      (decide (F32.signed n1 m1 + F32.signed n2 m2 < 0)) he he2 (abs_nonneg _) h
    have hadd : F32.add (.fin n1 m1) (.fin n2 m2) =
        .fin (decide (F32.signed n1 m1 + F32.signed n2 m2 < 0)) r := by
      simp only [F32.add, h0, if_false]
      exact e1
    refine ⟨F32.signed (decide (F32.signed n1 m1 + F32.signed n2 m2 < 0)) r,
      ⟨_, r, hadd, r0, rfl⟩, ?_⟩
    generalize F32.signed n1 m1 + F32.signed n2 m2 = s at re ⊢
    by_cases hs : s < 0
    · rw [abs_of_neg hs] at re
      rw [decide_eq_true hs]
      show |-r - s| ≤ _
      rw [show -r - s = -(r - -s) by ring, abs_neg]
      exact re
    · rw [abs_of_nonneg (not_lt.1 hs)] at re
      rw [decide_eq_false hs]
      exact re

theorem isVal_sub {a b : F32} {va vb : ℚ} {e : ℤ} (he : -126 ≤ e) (he2 : e ≤ 126)
    (ha : F32.IsVal a va) (hb : F32.IsVal b vb) (h : |va - vb| < (2 : ℚ) ^ (e + 1)) :
    ∃ r, F32.IsVal (F32.sub a b) r ∧ |r - (va - vb)| ≤ (2 : ℚ) ^ (e - 24) := by
  rw [sub_eq_add_neg] at h ⊢
  exact isVal_add he he2 ha (isVal_neg hb) h

/-- A product of two approximated factors. -/
theorem isVal_mul_err {a b : F32} {va vb a0 b0 εa εb A B : ℚ} {e : ℤ} (he : -126 ≤ e)
    (he2 : e ≤ 126) (ha : F32.IsVal a va) (hb : F32.IsVal b vb) (ea : |va - a0| ≤ εa)
    (eb : |vb - b0| ≤ εb) (hA : |a0| ≤ A) (hB : |b0| ≤ B)
    (hlt : (A + εa) * (B + εb) < (2 : ℚ) ^ (e + 1)) :
    ∃ r, F32.IsVal (F32.mul a b) r ∧
      |r - a0 * b0| ≤ (2 : ℚ) ^ (e - 24) + ((A + εa) * εb + εa * B) := by
  have hεb : 0 ≤ εb := le_trans (abs_nonneg _) eb
  have hεa : 0 ≤ εa := le_trans (abs_nonneg _) ea
  have hB0 : 0 ≤ B := le_trans (abs_nonneg _) hB
  have h1 : |va| ≤ A + εa := by
    have := abs_sub_abs_le_abs_sub va a0
    linarith
  have h2 : |vb| ≤ B + εb := by
    have := abs_sub_abs_le_abs_sub vb b0
    linarith
  have h3 : |va * vb| < (2 : ℚ) ^ (e + 1) := by
    rw [abs_mul]
    exact lt_of_le_of_lt
      (mul_le_mul h1 h2 (abs_nonneg _) (le_trans (abs_nonneg _) h1)) hlt
  obtain ⟨r, hr, re⟩ := isVal_mul he he2 ha hb h3
  refine ⟨r, hr, ?_⟩
  have h4 : |va * vb - a0 * b0| ≤ (A + εa) * εb + εa * B := by
    have e1 : va * vb - a0 * b0 = va * (vb - b0) + (va - a0) * b0 := by ring
    rw [e1]
    refine (abs_add _ _).trans ?_
    rw [abs_mul, abs_mul]
    exact add_le_add (mul_le_mul h1 eb (abs_nonneg _) (le_trans (abs_nonneg _) h1))
      (mul_le_mul ea hB (abs_nonneg _) hεa)
  have e2 : r - a0 * b0 = (r - va * vb) + (va * vb - a0 * b0) := by ring
  rw [e2]
  exact (abs_add _ _).trans (add_le_add re h4)

/-- A sum of two approximated terms. -/
theorem isVal_add_err {a b : F32} {va vb a0 b0 εa εb A B : ℚ} {e : ℤ} (he : -126 ≤ e)
    (he2 : e ≤ 126) (ha : F32.IsVal a va) (hb : F32.IsVal b vb) (ea : |va - a0| ≤ εa)
    (eb : |vb - b0| ≤ εb) (hA : |a0| ≤ A) (hB : |b0| ≤ B)
    (hlt : A + εa + (B + εb) < (2 : ℚ) ^ (e + 1)) :
    ∃ r, F32.IsVal (F32.add a b) r ∧
      |r - (a0 + b0)| ≤ (2 : ℚ) ^ (e - 24) + (εa + εb) := by
  have h1 : |va| ≤ A + εa := by
    have := abs_sub_abs_le_abs_sub va a0
    linarith
  have h2 : |vb| ≤ B + εb := by
    have := abs_sub_abs_le_abs_sub vb b0
    linarith
  have h3 : |va + vb| < (2 : ℚ) ^ (e + 1) :=
    lt_of_le_of_lt ((abs_add _ _).trans (add_le_add h1 h2)) hlt
  obtain ⟨r, hr, re⟩ := isVal_add he he2 ha hb h3
  refine ⟨r, hr, ?_⟩
  have e2 : r - (a0 + b0) = (r - (va + vb)) + ((va - a0) + (vb - b0)) := by ring
  rw [e2]
  exact (abs_add _ _).trans (add_le_add re ((abs_add _ _).trans (add_le_add ea eb)))

theorem add_eval (n1 n2 : Bool) (m1 m2 : ℚ) (neg : Bool) (x r : ℚ)
    (hs : F32.signed n1 m1 + F32.signed n2 m2 = F32.signed neg x) (hx : 0 < x)
    (hr : F32.round neg x = .fin neg r) :
    F32.add (.fin n1 m1) (.fin n2 m2) = .fin neg r := by
  have hne : F32.signed n1 m1 + F32.signed n2 m2 ≠ 0 := by
    rw [hs]
    cases neg <;> simp [F32.signed, hx.ne']
  have habs : |F32.signed n1 m1 + F32.signed n2 m2| = x := by
    rw [hs]
    exact signed_abs neg hx.le
  have hd : decide (F32.signed n1 m1 + F32.signed n2 m2 < 0) = neg := by
    rw [hs]
    cases neg
    · simp [F32.signed, hx.le]
    · simp [F32.signed, hx]
  simp only [F32.add, hne, if_false, habs, hd]
  exact hr

theorem add_eval_sub (n1 n2 : Bool) (m1 m2 : ℚ) (neg : Bool) (x r : ℚ)
    (hs : F32.signed n1 m1 + F32.signed (!n2) m2 = F32.signed neg x) (hx : 0 < x)
    (hr : F32.round neg x = .fin neg r) :
    F32.sub (.fin n1 m1) (.fin n2 m2) = .fin neg r :=
  add_eval n1 (!n2) m1 m2 neg x r hs hx hr

theorem roundEven_int (n : ℤ) : roundEven (n : ℚ) = n :=
  roundEven_eq_of (by linarith) (by linarith)

theorem floor_le_roundEven (y : ℚ) : ⌊y⌋ ≤ roundEven y := by
  unfold roundEven
  split_ifs <;> omega

theorem roundEven_le_floor_succ (y : ℚ) : roundEven y ≤ ⌊y⌋ + 1 := by
  unfold roundEven
  split_ifs <;> omega

theorem roundEven_mono {y1 y2 : ℚ} (h : y1 ≤ y2) : roundEven y1 ≤ roundEven y2 := by
  have hf : ⌊y1⌋ ≤ ⌊y2⌋ := Int.floor_mono h
  rcases hf.lt_or_eq with hlt | heq
  · have a := roundEven_le_floor_succ y1
    have b := floor_le_roundEven y2
    omega
  · unfold roundEven
    rw [heq]
    split_ifs <;> first | omega | (exfalso; linarith)

theorem rnd_le_of_lt_binade (x : ℚ) :
    F32.rnd x ≤ (2 : ℚ) ^ (F32.expo x + 1) := by
  have hq : (0 : ℚ) < (2 : ℚ) ^ (F32.expo x - 23) := by positivity
  have h1 : x < (2 : ℚ) ^ (F32.expo x + 1) := by
    have a : x < (2 : ℚ) ^ (Int.log 2 x + 1) := by
      exact_mod_cast Int.lt_zpow_succ_log_self (by norm_num : 1 < 2) x
    have b : (2 : ℚ) ^ (Int.log 2 x + 1) ≤ (2 : ℚ) ^ (F32.expo x + 1) :=
      zpow_le_zpow_right₀ (by norm_num) (by unfold F32.expo; omega)
    linarith
  have e1 : (2 : ℚ) ^ (F32.expo x + 1) = 16777216 * (2 : ℚ) ^ (F32.expo x - 23) := by
    have : F32.expo x + 1 = (F32.expo x - 23) + 24 := by ring
    rw [this, zpow_add₀ (by norm_num)]
    norm_num
    ring
  have h2 : x / (2 : ℚ) ^ (F32.expo x - 23) ≤ ((16777216 : ℤ) : ℚ) := by
    rw [div_le_iff₀ hq]
    push_cast
    linarith
  have h3 := roundEven_mono h2
  rw [roundEven_int] at h3
  have h4 : (roundEven (x / (2 : ℚ) ^ (F32.expo x - 23)) : ℚ) ≤ 16777216 := by
    exact_mod_cast h3
  unfold F32.rnd
  rw [e1]
  exact mul_le_mul_of_nonneg_right h4 hq.le

theorem rnd_ge_binade {x : ℚ} (hx : (2 : ℚ) ^ (-126 : ℤ) ≤ x) :
    (2 : ℚ) ^ F32.expo x ≤ F32.rnd x := by
  have hq : (0 : ℚ) < (2 : ℚ) ^ (F32.expo x - 23) := by positivity
  have h1 := expo_normal hx
  have e1 : (2 : ℚ) ^ F32.expo x = 8388608 * (2 : ℚ) ^ (F32.expo x - 23) := by
    have : F32.expo x = (F32.expo x - 23) + 23 := by ring
    nth_rewrite 1 [this]
    rw [zpow_add₀ (by norm_num)]
    norm_num
    ring
  have h2 : ((8388608 : ℤ) : ℚ) ≤ x / (2 : ℚ) ^ (F32.expo x - 23) := by
    rw [le_div_iff₀ hq]
    push_cast
    linarith
  have h3 := roundEven_mono h2
  rw [roundEven_int] at h3
  have h4 : (8388608 : ℚ) ≤ (roundEven (x / (2 : ℚ) ^ (F32.expo x - 23)) : ℚ) := by
    exact_mod_cast h3
  unfold F32.rnd
  rw [e1]
  exact mul_le_mul_of_nonneg_right h4 hq.le

theorem expo_mono {x y : ℚ} (hx : 0 < x) (hxy : x ≤ y) : F32.expo x ≤ F32.expo y := by
  have := Int.log_mono_right (b := 2) hx hxy
  unfold F32.expo
  omega

/-- Rounding is monotone. -/
theorem rnd_mono {x y : ℚ} (hx : 0 < x) (hxy : x ≤ y) : F32.rnd x ≤ F32.rnd y := by
  have he := expo_mono hx hxy
  rcases he.lt_or_eq with hlt | heq
  · have hy : (2 : ℚ) ^ (-126 : ℤ) ≤ y := by
      have hy0 : 0 < y := lt_of_lt_of_le hx hxy
      have h1 : (-126 : ℤ) < Int.log 2 y := by
        have := expo_ge x
        unfold F32.expo at hlt
        omega
      exact_mod_cast (Int.zpow_le_iff_le_log (by norm_num : 1 < 2) hy0).2 h1.le
    have a := rnd_le_of_lt_binade x
    have b := rnd_ge_binade hy
    have c : (2 : ℚ) ^ (F32.expo x + 1) ≤ (2 : ℚ) ^ F32.expo y :=
      zpow_le_zpow_right₀ (by norm_num) (by omega)
    linarith
  · have hq : (0 : ℚ) < (2 : ℚ) ^ (F32.expo y - 23) := by positivity
    have h1 : x / (2 : ℚ) ^ (F32.expo y - 23) ≤ y / (2 : ℚ) ^ (F32.expo y - 23) :=
      div_le_div_of_nonneg_right hxy hq.le
    have h2 := roundEven_mono h1
    have h3 : (roundEven (x / (2 : ℚ) ^ (F32.expo y - 23)) : ℚ) ≤
        (roundEven (y / (2 : ℚ) ^ (F32.expo y - 23)) : ℚ) := by exact_mod_cast h2
    unfold F32.rnd
    rw [heq]
    exact mul_le_mul_of_nonneg_right h3 hq.le

/-- A number with a 24-bit significand and an exponent in range is a binary32
number: rounding leaves it unchanged. -/
theorem rnd_rep (n k : ℤ) (h1 : 8388608 ≤ n) (h2 : n < 16777216) (hk : -149 ≤ k) :
    F32.rnd ((n : ℚ) * (2 : ℚ) ^ k) = (n : ℚ) * (2 : ℚ) ^ k := by
  have hp : (0 : ℚ) < (2 : ℚ) ^ k := by positivity
  have q1 : (8388608 : ℚ) ≤ (n : ℚ) := by exact_mod_cast h1
  have q2 : (n : ℚ) < 16777216 := by exact_mod_cast h2
  have e23 : (2 : ℚ) ^ (k + 23) = 8388608 * (2 : ℚ) ^ k := by
    rw [zpow_add₀ (by norm_num)]
    norm_num
    ring
  have e24 : (2 : ℚ) ^ (k + 23 + 1) = 16777216 * (2 : ℚ) ^ k := by
    have : k + 23 + 1 = k + 24 := by ring
    rw [this, zpow_add₀ (by norm_num)]
    norm_num
    ring
  have ek : k + 23 - 23 = k := by ring
  have ediv : (n : ℚ) * (2 : ℚ) ^ k / (2 : ℚ) ^ (k + 23 - 23) = (n : ℚ) := by
    rw [ek]
    field_simp
  rw [rnd_eval (k + 23) n (by omega)
    (by rw [e23]; exact mul_le_mul_of_nonneg_right q1 hp.le)
    (by rw [e24]; exact mul_lt_mul_of_pos_right q2 hp)
    (by rw [ediv]; linarith) (by rw [ediv]; linarith), ek]

/-- The result of rounding a normal number has a 24-bit significand. -/
theorem rep_of_rnd {x : ℚ} (hx : (2 : ℚ) ^ (-126 : ℤ) ≤ x) :
    ∃ n k : ℤ, 8388608 ≤ n ∧ n < 16777216 ∧ F32.expo x - 23 ≤ k ∧
      F32.rnd x = (n : ℚ) * (2 : ℚ) ^ k := by
  have hx0 : 0 < x := lt_of_lt_of_le (by positivity) hx
  have hq : (0 : ℚ) < (2 : ℚ) ^ (F32.expo x - 23) := by positivity
  have lo := rnd_ge_binade hx
  have hi := rnd_le_of_lt_binade x
  have e1 : (2 : ℚ) ^ F32.expo x = 8388608 * (2 : ℚ) ^ (F32.expo x - 23) := by
    have : F32.expo x = (F32.expo x - 23) + 23 := by ring
    nth_rewrite 1 [this]
    rw [zpow_add₀ (by norm_num)]
    norm_num
    ring
  have e2 : (2 : ℚ) ^ (F32.expo x + 1) = 16777216 * (2 : ℚ) ^ (F32.expo x - 23) := by
    have : F32.expo x + 1 = (F32.expo x - 23) + 24 := by ring
    rw [this, zpow_add₀ (by norm_num)]
    norm_num
    ring
  have hr : F32.rnd x = (roundEven (x / (2 : ℚ) ^ (F32.expo x - 23)) : ℚ) *
      (2 : ℚ) ^ (F32.expo x - 23) := rfl
  rw [hr, e1] at lo
  rw [hr, e2] at hi
  have n1 : (8388608 : ℚ) ≤ (roundEven (x / (2 : ℚ) ^ (F32.expo x - 23)) : ℚ) :=
    le_of_mul_le_mul_right lo hq
  have n2 : (roundEven (x / (2 : ℚ) ^ (F32.expo x - 23)) : ℚ) ≤ 16777216 :=
    le_of_mul_le_mul_right hi hq
  have m1 : (8388608 : ℤ) ≤ roundEven (x / (2 : ℚ) ^ (F32.expo x - 23)) := by
    exact_mod_cast n1
  have m2 : roundEven (x / (2 : ℚ) ^ (F32.expo x - 23)) ≤ (16777216 : ℤ) := by
    exact_mod_cast n2
  rcases m2.lt_or_eq with hlt | heq
  · exact ⟨_, F32.expo x - 23, m1, hlt, le_refl _, hr⟩
  · refine ⟨8388608, F32.expo x - 23 + 1, by norm_num, by norm_num, by omega, ?_⟩
    rw [hr, heq, zpow_add_one₀ (by norm_num)]
    push_cast
    ring

theorem rnd_idem {x : ℚ} (hx : (2 : ℚ) ^ (-126 : ℤ) ≤ x) : F32.rnd (F32.rnd x) = F32.rnd x := by
  obtain ⟨n, k, h1, h2, hk, e⟩ := rep_of_rnd hx
  rw [e]
  exact rnd_rep n k h1 h2 (by have := expo_ge x; omega)

theorem rnd_double {x : ℚ} (hx : (2 : ℚ) ^ (-126 : ℤ) ≤ x) :
    F32.rnd (F32.rnd x * 2) = F32.rnd x * 2 := by
  obtain ⟨n, k, h1, h2, hk, e⟩ := rep_of_rnd hx
  have e2 : F32.rnd x * 2 = (n : ℚ) * (2 : ℚ) ^ (k + 1) := by
    rw [e, zpow_add_one₀ (by norm_num)]
    ring
  rw [e2]
  exact rnd_rep n (k + 1) h1 h2 (by have := expo_ge x; omega)

theorem rnd_half {x : ℚ} (hx : (2 : ℚ) ^ (-125 : ℤ) ≤ x) :
    F32.rnd (F32.rnd x / 2) = F32.rnd x / 2 := by
  have hx' : (2 : ℚ) ^ (-126 : ℤ) ≤ x :=
    le_trans (zpow_le_zpow_right₀ (by norm_num) (by norm_num)) hx
  have hx0 : 0 < x := lt_of_lt_of_le (by positivity) hx
  obtain ⟨n, k, h1, h2, hk, e⟩ := rep_of_rnd hx'
  have hex : (-125 : ℤ) ≤ F32.expo x := by
    have a : (-125 : ℤ) ≤ Int.log 2 x :=
      (Int.zpow_le_iff_le_log (by norm_num) hx0).1 (by exact_mod_cast hx)
    unfold F32.expo
    omega
  have e2 : F32.rnd x / 2 = (n : ℚ) * (2 : ℚ) ^ (k - 1) := by
    rw [e, zpow_sub_one₀ (by norm_num)]
    ring
  rw [e2]
  exact rnd_rep n (k - 1) h1 h2 (by omega)

theorem rnd_two : F32.rnd 2 = 2 := by
  have h := rnd_rep 8388608 (-22) (by norm_num) (by norm_num) (by norm_num)
  have e : ((8388608 : ℤ) : ℚ) * (2 : ℚ) ^ (-22 : ℤ) = 2 := by norm_num
  rw [e] at h
  exact h

theorem div_neg_fin (m1 : ℚ) {m2 : ℚ} (h : m2 ≠ 0) {r : ℚ}
    (e : F32.div (.fin false m1) (.fin false m2) = .fin false r) :
    F32.div (F32.neg (.fin false m1)) (.fin false m2) = .fin true r := by
  rw [div_fin false false m1 h] at e
  have e2 := congrArg F32.neg e
  rw [round_neg] at e2
  show F32.div (.fin true m1) (.fin false m2) = .fin true r
  rw [div_fin true false m1 h]
  exact e2

theorem half_two : F32.div (F32.lit 2) (F32.ofInt 2) = .fin false 1 := by
  rw [lit_two, ofInt_two, div_fin false false 2 (by norm_num)]
  have : (2 : ℚ) / 2 = 1 := by norm_num
  rw [this]
  exact round_one _

theorem neg_half_two : F32.div (F32.neg (F32.lit 2)) (F32.ofInt 2) = .fin true 1 := by
  have h := half_two
  rw [lit_two, ofInt_two] at h ⊢
  exact div_neg_fin 2 (by norm_num) h

theorem neg_lit_one : F32.neg (F32.lit 1) = .fin true 1 := by
  rw [lit_one]
  rfl

theorem lower_of_relc {a : ℚ} (ha : 0 < a) (h : 1 ≤ a * F32.relc ^ 6) :
    1 - 1 / 2 ^ 21 ≤ a := by
  have h1 : a * F32.relc ^ 6 ≤ a * (1 + 1 / (2 ^ 21 - 1)) :=
    mul_le_mul_of_nonneg_left relc_pow_6 ha.le
  have h2 : 1 ≤ a * (1 + 1 / (2 ^ 21 - 1)) := h.trans h1
  norm_num at h2 ⊢
  linarith

theorem pos_gt_zero {a : F32} {v : ℚ} {lo hi : ℤ} (h : F32.Pos a v lo hi) : 0 < v :=
  lt_of_lt_of_le (by positivity) h.2.1

/-- Wide case, on the numbers: the half width `a` is at least 1 up to rounding
and the on-screen ratio is the source ratio up to rounding. -/
theorem wide_real {w h sw sh W H SW SH AR X N D VW a : ℚ} (qw : 0 < w) (qh : 0 < h)
    (cW : Close 1 W w) (cH : Close 1 H h) (cSW : Close 1 SW sw) (cSH : Close 1 SH sh)
    (cAR : Close 1 AR (SW / SH)) (cX : Close 1 X (W / H)) (cN : Close 1 N (W * 2))
    (cD : Close 1 D (AR * H)) (cVW : Close 1 VW (N / D)) (ca : Close 1 a (VW / 2))
    (hc : AR < X) :
    1 - 1 / 2 ^ 21 ≤ a ∧ |w / a / (h / 1) - sw / sh| ≤ 1 / 2 ^ 20 * (sw / sh) := by
  have c2 : Close 0 (2 : ℚ) 2 := close_refl (by norm_num)
  have hW : 0 < W := cW.1
  have hH : 0 < H := cH.1
  have hAR : 0 < AR := cAR.1
  have ha : 0 < a := ca.1
  have cARi := close_trans cAR (close_div cSW cSH)
  constructor
  · have c4 := close_trans ca (close_div (close_trans cVW (close_div cN cD)) c2)
    have h1 : W * 2 / (AR * H) / 2 ≤ a * F32.relc ^ 4 := c4.2.2.2
    have h2 : X ≤ W / H * F32.relc ^ 1 := cX.2.2.1
    have h3 : AR * H < W * F32.relc := by
      have : AR < W / H * F32.relc := by
        rw [pow_one] at h2
        linarith
      have h4 := mul_lt_mul_of_pos_right this hH
      have h5 : W / H * F32.relc * H = W * F32.relc := by
        field_simp
      linarith
    have h6 : 1 ≤ W * 2 / (AR * H) / 2 * F32.relc := by
      have hpos : 0 < AR * H := mul_pos hAR hH
      have : W * 2 / (AR * H) / 2 * F32.relc = W * F32.relc / (AR * H) := by
        field_simp
        ring
      rw [this, le_div_iff₀ hpos]
      linarith
    apply lower_of_relc ha
    have h7 : W * 2 / (AR * H) / 2 * F32.relc ≤ a * F32.relc ^ 4 * F32.relc :=
      mul_le_mul_of_nonneg_right h1 relc_pos.le
    have h8 : a * F32.relc ^ 4 * F32.relc ≤ a * F32.relc ^ 6 := by
      have : F32.relc ^ 5 ≤ F32.relc ^ 6 := pow_le_pow_right₀ one_le_relc (by norm_num)
      have e5 : a * F32.relc ^ 4 * F32.relc = a * F32.relc ^ 5 := by ring
      rw [e5]
      exact mul_le_mul_of_nonneg_left this ha.le
    linarith
  · have c9 := close_trans ca (close_div (close_trans cVW (close_div (close_trans cN
      (close_mul cW c2)) (close_trans cD (close_mul cARi cH)))) c2)
    have c0 : Close 0 (w / h) (w / h) := close_refl (div_pos qw qh)
    have cr := close_div c0 c9
    have hsh : sh ≠ 0 := cSH.2.1.ne'
    have hsw : sw ≠ 0 := cSW.2.1.ne'
    have hw0 : w ≠ 0 := qw.ne'
    have hh0 : h ≠ 0 := qh.ne'
    have ha0 : a ≠ 0 := ha.ne'
    have e1 : w / h / a = w / a / (h / 1) := by
      rw [div_one]
      exact div_right_comm w h a
    have e2 : w / h / (w * 2 / (sw / sh * h) / 2) = sw / sh := by
      field_simp
      ring
    rw [e1, e2] at cr
    exact close_abs (close_mono (k := 10) (by norm_num) cr) relc_pow_10 (by norm_num)

/-- Wide case, exactly: rounding is monotone, doubling and halving are exact, so the
half width is at least 1. -/
theorem wide_exact {w SW SH W H AR X N D VW a : ℚ} (hw : (2 : ℚ) ^ (-126 : ℤ) ≤ w)
    (hs : (2 : ℚ) ^ (-126 : ℤ) ≤ SW / SH) (hH : 0 < H) (hD : 0 < D)
    (hnd : (2 : ℚ) ^ (-125 : ℤ) ≤ N / D)
    (eW : W = F32.rnd w) (eAR : AR = F32.rnd (SW / SH)) (eX : X = F32.rnd (W / H))
    (eN : N = F32.rnd (W * 2)) (eD : D = F32.rnd (AR * H)) (eVW : VW = F32.rnd (N / D))
    (ea : a = F32.rnd (VW / 2)) (hc : AR < X) : 1 ≤ a := by
  have hAR : 0 < AR := by
    rw [eAR]
    exact (close_rnd hs).1
  have hW : 0 < W := by
    rw [eW]
    exact (close_rnd hw).1
  have iAR : F32.rnd AR = AR := by
    rw [eAR]
    exact rnd_idem hs
  have iW : F32.rnd W = W := by
    rw [eW]
    exact rnd_idem hw
  have h1 : AR < W / H := by
    by_contra hn
    have h := rnd_mono (div_pos hW hH) (not_lt.1 hn)
    rw [iAR, ← eX] at h
    linarith
  have h2 : AR * H ≤ W := by
    have := (lt_div_iff₀ hH).1 h1
    linarith
  have h3 : D ≤ W := by
    have h := rnd_mono (mul_pos hAR hH) h2
    rw [iW, ← eD] at h
    exact h
  have h4 : N = W * 2 := by
    rw [eN, eW]
    exact rnd_double hw
  have h5 : (2 : ℚ) ≤ N / D := by
    rw [le_div_iff₀ hD, h4]
    linarith
  have h6 : (2 : ℚ) ≤ VW := by
    have h := rnd_mono (by norm_num) h5
    rw [rnd_two, ← eVW] at h
    exact h
  have h7 : a = VW / 2 := by
    rw [ea, eVW]
    exact rnd_half hnd
  rw [h7]
  linarith

/-- Tall case, on the numbers. -/
theorem tall_real {w h sw sh W H SW SH AR X I N D VH b : ℚ} (qw : 0 < w) (qh : 0 < h)
    (cW : Close 1 W w) (cH : Close 1 H h) (cSW : Close 1 SW sw) (cSH : Close 1 SH sh)
    (cAR : Close 1 AR (SW / SH)) (cX : Close 1 X (W / H)) (cI : Close 1 I (1 / AR))
    (cN : Close 1 N (H * 2)) (cD : Close 1 D (I * W)) (cVH : Close 1 VH (N / D))
    (cb : Close 1 b (VH / 2)) (hc : ¬ AR < X) :
    1 - 1 / 2 ^ 21 ≤ b ∧ |w / 1 / (h / b) - sw / sh| ≤ 1 / 2 ^ 20 * (sw / sh) := by
  have c2 : Close 0 (2 : ℚ) 2 := close_refl (by norm_num)
  have c1 : Close 0 (1 : ℚ) 1 := close_refl (by norm_num)
  have hW : 0 < W := cW.1
  have hH : 0 < H := cH.1
  have hAR : 0 < AR := cAR.1
  have hb : 0 < b := cb.1
  have cARi := close_trans cAR (close_div cSW cSH)
  constructor
  · have c5 := close_trans cb (close_div (close_trans cVH (close_div cN
      (close_trans cD (close_mul cI (close_refl hW))))) c2)
    have h1 : H * 2 / (1 / AR * W) / 2 ≤ b * F32.relc ^ 5 := c5.2.2.2
    have h2 : W / H ≤ X * F32.relc ^ 1 := cX.2.2.2
    have h3 : W ≤ AR * H * F32.relc := by
      have hxa : X ≤ AR := not_lt.1 hc
      have : W / H ≤ AR * F32.relc := by
        rw [pow_one] at h2
        exact h2.trans (mul_le_mul_of_nonneg_right hxa relc_pos.le)
      have h4 := mul_le_mul_of_nonneg_right this hH.le
      have h5 : W / H * H = W := by field_simp
      linarith
    have h6 : 1 ≤ H * 2 / (1 / AR * W) / 2 * F32.relc := by
      have : H * 2 / (1 / AR * W) / 2 * F32.relc = AR * H * F32.relc / W := by
        field_simp
        ring
      rw [this, le_div_iff₀ hW]
      linarith
    apply lower_of_relc hb
    have h7 : H * 2 / (1 / AR * W) / 2 * F32.relc ≤ b * F32.relc ^ 5 * F32.relc :=
      mul_le_mul_of_nonneg_right h1 relc_pos.le
    have e6 : b * F32.relc ^ 5 * F32.relc = b * F32.relc ^ 6 := by ring
    linarith
  · have c10 := close_trans cb (close_div (close_trans cVH (close_div (close_trans cN
      (close_mul cH c2)) (close_trans cD (close_mul (close_trans cI
        (close_div c1 cARi)) cW)))) c2)
    have c0 : Close 0 (w / h) (w / h) := close_refl (div_pos qw qh)
    have cr := close_mul c0 c10
    have hsh : sh ≠ 0 := cSH.2.1.ne'
    have hsw : sw ≠ 0 := cSW.2.1.ne'
    have hw0 : w ≠ 0 := qw.ne'
    have hh0 : h ≠ 0 := qh.ne'
    have hb0 : b ≠ 0 := hb.ne'
    have e1 : w / h * b = w / 1 / (h / b) := by
      field_simp
    have e2 : w / h * (h * 2 / (1 / (sw / sh) * w) / 2) = sw / sh := by
      field_simp
      ring
    rw [e1, e2] at cr
    exact close_abs (close_mono (k := 10) (by norm_num) cr) relc_pow_10 (by norm_num)

/-- The box of `resizeGL` for positive sizes, wide case or tall case as the
binary32 comparison decides. -/
theorem letterbox_box (w h sw sh : Int) (hw : 0 < w) (hw2 : w < 2 ^ 31) (hh : 0 < h)
    (hh2 : h < 2 ^ 31) (hsw : 0 < sw) (hsw2 : sw < 2 ^ 31) (hsh : 0 < sh)
    (hsh2 : sh < 2 ^ 31) :
    ∃ a b : ℚ,
      (if F32.gt (F32.div (F32.ofInt w) (F32.ofInt h))
            (F32.div (F32.ofInt sw) (F32.ofInt sh)) = true then
          QMatrix4x4.ortho
            (F32.div (F32.neg (F32.div (F32.mul (F32.ofInt w) (F32.lit 2))
              (F32.mul (F32.div (F32.ofInt sw) (F32.ofInt sh)) (F32.ofInt h))))
              (F32.ofInt 2))
            (F32.div (F32.div (F32.mul (F32.ofInt w) (F32.lit 2))
              (F32.mul (F32.div (F32.ofInt sw) (F32.ofInt sh)) (F32.ofInt h)))
              (F32.ofInt 2))
            (F32.div (F32.neg (F32.lit 2)) (F32.ofInt 2)) (F32.div (F32.lit 2) (F32.ofInt 2))
            (F32.neg (F32.lit 1)) (F32.lit 1)
        else
          QMatrix4x4.ortho
            (F32.div (F32.neg (F32.lit 2)) (F32.ofInt 2)) (F32.div (F32.lit 2) (F32.ofInt 2))
            (F32.div (F32.neg (F32.div (F32.mul (F32.ofInt h) (F32.lit 2))
              (F32.mul (F32.div (F32.ofInt 1)
                (F32.div (F32.ofInt sw) (F32.ofInt sh))) (F32.ofInt w))))
              (F32.ofInt 2))
            (F32.div (F32.div (F32.mul (F32.ofInt h) (F32.lit 2))
              (F32.mul (F32.div (F32.ofInt 1)
                (F32.div (F32.ofInt sw) (F32.ofInt sh))) (F32.ofInt w)))
              (F32.ofInt 2))
            (F32.neg (F32.lit 1)) (F32.lit 1)) =
        QMatrix4x4.ortho (.fin true a) (.fin false a) (.fin true b) (.fin false b)
          (.fin true 1) (.fin false 1) ∧
      (if F32.gt (F32.div (F32.ofInt w) (F32.ofInt h))
            (F32.div (F32.ofInt sw) (F32.ofInt sh)) = true then
          b = 1 ∧ 1 ≤ a
        else a = 1 ∧ 1 - 1 / 2 ^ 21 ≤ b) ∧
      |((w : ℚ) / a) / ((h : ℚ) / b) - (sw : ℚ) / (sh : ℚ)| ≤
        1 / 2 ^ 20 * ((sw : ℚ) / (sh : ℚ)) := by
  have qw : (0 : ℚ) < (w : ℚ) := by exact_mod_cast hw
  have qh : (0 : ℚ) < (h : ℚ) := by exact_mod_cast hh
  obtain ⟨W, eW, pW, cW⟩ := pos_ofInt hw hw2
  obtain ⟨H, eH, pH, cH⟩ := pos_ofInt hh hh2
  obtain ⟨SW, eSW, pSW, cSW⟩ := pos_ofInt hsw hsw2
  obtain ⟨SH, eSH, pSH, cSH⟩ := pos_ofInt hsh hsh2
  obtain ⟨AR, eAR, pAR, cAR⟩ := pos_div pSW pSH (by norm_num) (by norm_num)
  obtain ⟨X, eX, pX, cX⟩ := pos_div pW pH (by norm_num) (by norm_num)
  have p2 : F32.Pos (F32.lit 2) 2 1 1 := ⟨lit_two, by norm_num, by norm_num⟩
  have p2' : F32.Pos (F32.ofInt 2) 2 1 1 := ⟨ofInt_two, by norm_num, by norm_num⟩
  have p1 : F32.Pos (F32.ofInt 1) 1 0 0 := ⟨ofInt_one, by norm_num, by norm_num⟩
  have hgt : F32.gt (F32.div (F32.ofInt w) (F32.ofInt h))
      (F32.div (F32.ofInt sw) (F32.ofInt sh)) = decide (AR < X) := by
    rw [pX.1, pAR.1]
    exact gt_fin X AR
  by_cases hc : AR < X
  · have hd : decide (AR < X) = true := decide_eq_true hc
    obtain ⟨N, eN, pN, cN⟩ := pos_mul pW p2 (by norm_num) (by norm_num)
    obtain ⟨D, eD, pD, cD⟩ := pos_mul pAR pH (by norm_num) (by norm_num)
    obtain ⟨VW, eVW, pVW, cVW⟩ := pos_div pN pD (by norm_num) (by norm_num)
    obtain ⟨a, ea, pa, ca⟩ := pos_div pVW p2' (by norm_num) (by norm_num)
    have eleft : F32.div (F32.neg (F32.div (F32.mul (F32.ofInt w) (F32.lit 2))
        (F32.mul (F32.div (F32.ofInt sw) (F32.ofInt sh)) (F32.ofInt h)))) (F32.ofInt 2) =
        .fin true a := by
      have e := pa.1
      rw [pVW.1, ofInt_two] at e ⊢
      exact div_neg_fin VW (by norm_num) e
    obtain ⟨_, r2⟩ := wide_real qw qh cW cH cSW cSH cAR cX cN cD cVW ca hc
    have hw1 : (2 : ℚ) ^ (-126 : ℤ) ≤ (w : ℚ) :=
      le_trans (by norm_num) (by exact_mod_cast hw : (1 : ℚ) ≤ (w : ℚ))
    have hs1 : (2 : ℚ) ^ (-126 : ℤ) ≤ SW / SH :=
      le_trans (zpow_le_zpow_right₀ (by norm_num) (by norm_num)) (pos_div_lo pSW pSH)
    have hnd : (2 : ℚ) ^ (-125 : ℤ) ≤ N / D :=
      le_trans (zpow_le_zpow_right₀ (by norm_num) (by norm_num)) (pos_div_lo pN pD)
    have r1 : 1 ≤ a :=
      wide_exact hw1 hs1 (pos_gt_zero pH) (pos_gt_zero pD) hnd eW eAR eX eN eD eVW ea hc
    refine ⟨a, 1, ?_, ?_, r2⟩
    · rw [hgt, if_pos hd, eleft, pa.1, half_two, neg_half_two, neg_lit_one, lit_one]
    · rw [hgt, if_pos hd]
      exact ⟨rfl, r1⟩
  · have hd : ¬ decide (AR < X) = true := by simpa using hc
    obtain ⟨I, eI, pI, cI⟩ := pos_div p1 pAR (by norm_num) (by norm_num)
    obtain ⟨N, eN, pN, cN⟩ := pos_mul pH p2 (by norm_num) (by norm_num)
    obtain ⟨D, eD, pD, cD⟩ := pos_mul pI pW (by norm_num) (by norm_num)
    obtain ⟨VH, eVH, pVH, cVH⟩ := pos_div pN pD (by norm_num) (by norm_num)
    obtain ⟨b, eb, pb, cb⟩ := pos_div pVH p2' (by norm_num) (by norm_num)
    have ebot : F32.div (F32.neg (F32.div (F32.mul (F32.ofInt h) (F32.lit 2))
        (F32.mul (F32.div (F32.ofInt 1) (F32.div (F32.ofInt sw) (F32.ofInt sh)))
          (F32.ofInt w)))) (F32.ofInt 2) = .fin true b := by
      have e := pb.1
      rw [pVH.1, ofInt_two] at e ⊢
      exact div_neg_fin VH (by norm_num) e
    obtain ⟨r1, r2⟩ := tall_real qw qh cW cH cSW cSH cAR cX cI cN cD cVH cb hc
    refine ⟨1, b, ?_, ?_, r2⟩
    · rw [hgt, if_neg hd, ebot, pb.1, half_two, neg_half_two, neg_lit_one, lit_one]
    · rw [hgt, if_neg hd]
      exact ⟨rfl, r1⟩

theorem lit_half : F32.lit 0.5 = .fin false (1 / 2) :=
  round_eq false (1 / 2) (-1) 8388608 (by norm_num) (by norm_num) (by norm_num)
    (by norm_num) (by norm_num) (by norm_num) (by norm_num)

theorem isVal_one : F32.IsVal (F32.ofInt 1) 1 := by
  rw [ofInt_one]
  exact isVal_fin (by norm_num)

theorem isVal_zero : F32.IsVal (F32.ofInt 0) 0 := by
  rw [ofInt_zero]
  exact isVal_fin (le_refl 0)

/-- A sample in [0,1] minus `0.5`. -/
theorem isVal_centred {u : ℚ} (hu0 : 0 ≤ u) (hu1 : u ≤ 1) :
    ∃ r, F32.IsVal (F32.sub (.fin false u) (F32.lit 0.5)) r ∧
      |r - (u - 1 / 2)| ≤ (2 : ℚ) ^ ((-1 : ℤ) - 24) ∧ |u - 1 / 2| ≤ 1 / 2 := by
  have hb : |u - 1 / 2| ≤ 1 / 2 := by
    rw [abs_le]
    constructor <;> linarith
  have hhalf : F32.IsVal (F32.lit 0.5) (1 / 2) := by
    rw [lit_half]
    exact isVal_fin (by norm_num)
  obtain ⟨r, hr, re⟩ := isVal_sub (e := -1) (by norm_num) (by norm_num) (isVal_fin hu0) hhalf
    (lt_of_le_of_lt hb (by norm_num))
  exact ⟨r, hr, re, hb⟩

/-- A negated literal. -/
theorem isVal_neg_lit {x : ℚ} {e : ℤ} (he : -126 ≤ e) (he2 : e ≤ 126) (hx0 : 0 ≤ x)
    (hx : x < (2 : ℚ) ^ (e + 1)) :
    ∃ r, F32.IsVal (F32.neg (F32.lit x)) r ∧ |r - -x| ≤ (2 : ℚ) ^ (e - 24) := by
  obtain ⟨k, hk, ke⟩ := isVal_lit he he2 hx0 hx
  refine ⟨-k, isVal_neg hk, ?_⟩
  rw [neg_sub_neg, abs_sub_comm]
  exact ke

/-- The red component: `1*Y + 0*(U-0.5) + 1.13983*(V-0.5)` up to rounding. -/
theorem shader_red {y u v : ℚ} (hy0 : 0 ≤ y) (hy1 : y ≤ 1) (hu0 : 0 ≤ u) (hu1 : u ≤ 1)
    (hv0 : 0 ≤ v) (hv1 : v ≤ 1) :
    ∃ r, F32.IsVal (fragmentShader (.fin false y) (.fin false u) (.fin false v)).1 r ∧
      |r - (y + 1.13983 * (v - 0.5))| ≤ 1 / 10 ^ 6 := by
  obtain ⟨u', hu', eu', bu⟩ := isVal_centred hu0 hu1
  obtain ⟨v', hv', ev', bv⟩ := isVal_centred hv0 hv1
  have by1 : |y| ≤ 1 := by rw [abs_le]; constructor <;> linarith
  obtain ⟨r1, h1, e1⟩ := isVal_mul_err (e := 0) (by norm_num) (by norm_num)
    isVal_one (isVal_fin hy0) (by norm_num : |(1 : ℚ) - 1| ≤ 0) (by norm_num : |y - y| ≤ 0)
    (by norm_num : |(1 : ℚ)| ≤ 1) by1 (by norm_num)
  obtain ⟨r2, h2, e2⟩ := isVal_mul_err (e := -126) (by norm_num) (by norm_num)
    isVal_zero hu' (by norm_num : |(0 : ℚ) - 0| ≤ 0) eu' (by norm_num : |(0 : ℚ)| ≤ 0) bu
    (by norm_num)
  have b1 : |1 * y| ≤ 1 := by rw [one_mul]; exact by1
  have b2 : |0 * (u - 1 / 2)| ≤ 0 := by rw [zero_mul, abs_zero]
  obtain ⟨r3, h3, e3⟩ := isVal_add_err (e := 0) (by norm_num) (by norm_num) h1 h2 e1 e2 b1 b2
    (by norm_num)
  obtain ⟨k, hk, ek⟩ := isVal_lit (x := 1.13983) (e := 0) (by norm_num) (by norm_num)
    (by norm_num) (by norm_num)
  obtain ⟨r4, h4, e4⟩ := isVal_mul_err (e := -1) (by norm_num) (by norm_num)
    hk hv' ek ev' (by rw [abs_of_pos (by norm_num)] : |(1.13983 : ℚ)| ≤ 1.13983) bv (by norm_num)
  have b3 : |1 * y + 0 * (u - 1 / 2)| ≤ 1 := by
    rw [one_mul, zero_mul, add_zero]; exact by1
  have b4 : |1.13983 * (v - 1 / 2)| ≤ 1.13983 * (1 / 2) := by
    rw [abs_mul, abs_of_pos (by norm_num : (0 : ℚ) < 1.13983)]
    exact mul_le_mul_of_nonneg_left bv (by norm_num)
  obtain ⟨r, hr, er⟩ := isVal_add_err (e := 0) (by norm_num) (by norm_num) h3 h4 e3 e4 b3 b4
    (by norm_num)
  refine ⟨r, hr, ?_⟩
  have e5 : y + 1.13983 * (v - 0.5) = 1 * y + 0 * (u - 1 / 2) + 1.13983 * (v - 1 / 2) := by
    norm_num
  rw [e5]
  refine er.trans ?_
  norm_num

/-- The green component: `1*Y - 0.39465*(U-0.5) - 0.58060*(V-0.5)` up to
rounding. -/
theorem shader_green {y u v : ℚ} (hy0 : 0 ≤ y) (hy1 : y ≤ 1) (hu0 : 0 ≤ u) (hu1 : u ≤ 1)
    (hv0 : 0 ≤ v) (hv1 : v ≤ 1) :
    ∃ r, F32.IsVal (fragmentShader (.fin false y) (.fin false u) (.fin false v)).2.1 r ∧
      |r - (y - 0.39465 * (u - 0.5) - 0.58060 * (v - 0.5))| ≤ 1 / 10 ^ 6 := by
  obtain ⟨u', hu', eu', bu⟩ := isVal_centred hu0 hu1
  obtain ⟨v', hv', ev', bv⟩ := isVal_centred hv0 hv1
  have by1 : |y| ≤ 1 := by rw [abs_le]; constructor <;> linarith
  obtain ⟨r1, h1, e1⟩ := isVal_mul_err (e := 0) (by norm_num) (by norm_num)
    isVal_one (isVal_fin hy0) (by norm_num : |(1 : ℚ) - 1| ≤ 0) (by norm_num : |y - y| ≤ 0)
    (by norm_num : |(1 : ℚ)| ≤ 1) by1 (by norm_num)
  obtain ⟨k1, hk1, ek1⟩ := isVal_neg_lit (x := 0.39465) (e := -2) (by norm_num) (by norm_num)
    (by norm_num) (by norm_num)
  obtain ⟨r2, h2, e2⟩ := isVal_mul_err (e := -1) (by norm_num) (by norm_num)
    hk1 hu' ek1 eu'
    (by rw [abs_neg, abs_of_pos (by norm_num)] : |(-0.39465 : ℚ)| ≤ 0.39465) bu (by norm_num)
  have b1 : |1 * y| ≤ 1 := by rw [one_mul]; exact by1
  have b2 : |-0.39465 * (u - 1 / 2)| ≤ 0.39465 * (1 / 2) := by
    rw [abs_mul, abs_neg, abs_of_pos (by norm_num : (0 : ℚ) < 0.39465)]
    exact mul_le_mul_of_nonneg_left bu (by norm_num)
  obtain ⟨r3, h3, e3⟩ := isVal_add_err (e := 0) (by norm_num) (by norm_num) h1 h2 e1 e2 b1 b2
    (by norm_num)
  obtain ⟨k2, hk2, ek2⟩ := isVal_neg_lit (x := 0.58060) (e := -1) (by norm_num) (by norm_num)
    (by norm_num) (by norm_num)
  obtain ⟨r4, h4, e4⟩ := isVal_mul_err (e := -1) (by norm_num) (by norm_num)
    hk2 hv' ek2 ev'
    (by rw [abs_neg, abs_of_pos (by norm_num)] : |(-0.58060 : ℚ)| ≤ 0.58060) bv (by norm_num)
  have b3 : |1 * y + -0.39465 * (u - 1 / 2)| ≤ 1 + 0.39465 * (1 / 2) :=
    (abs_add _ _).trans (add_le_add b1 b2)
  have b4 : |-0.58060 * (v - 1 / 2)| ≤ 0.58060 * (1 / 2) := by
    rw [abs_mul, abs_neg, abs_of_pos (by norm_num : (0 : ℚ) < 0.58060)]
    exact mul_le_mul_of_nonneg_left bv (by norm_num)
  obtain ⟨r, hr, er⟩ := isVal_add_err (e := 0) (by norm_num) (by norm_num) h3 h4 e3 e4 b3 b4
    (by norm_num)
  refine ⟨r, hr, ?_⟩
  have e5 : y - 0.39465 * (u - 0.5) - 0.58060 * (v - 0.5) =
      1 * y + -0.39465 * (u - 1 / 2) + -0.58060 * (v - 1 / 2) := by
    norm_num
    ring
  rw [e5]
  refine er.trans ?_
  norm_num

/-- The blue component: `1*Y + 2.03211*(U-0.5) + 0*(V-0.5)` up to rounding. -/
theorem shader_blue {y u v : ℚ} (hy0 : 0 ≤ y) (hy1 : y ≤ 1) (hu0 : 0 ≤ u) (hu1 : u ≤ 1)
    (hv0 : 0 ≤ v) (hv1 : v ≤ 1) :
    ∃ r, F32.IsVal (fragmentShader (.fin false y) (.fin false u) (.fin false v)).2.2 r ∧
      |r - (y + 2.03211 * (u - 0.5))| ≤ 1 / 10 ^ 6 := by
  obtain ⟨u', hu', eu', bu⟩ := isVal_centred hu0 hu1
  obtain ⟨v', hv', ev', bv⟩ := isVal_centred hv0 hv1
  have by1 : |y| ≤ 1 := by rw [abs_le]; constructor <;> linarith
  obtain ⟨r1, h1, e1⟩ := isVal_mul_err (e := 0) (by norm_num) (by norm_num)
    isVal_one (isVal_fin hy0) (by norm_num : |(1 : ℚ) - 1| ≤ 0) (by norm_num : |y - y| ≤ 0)
    (by norm_num : |(1 : ℚ)| ≤ 1) by1 (by norm_num)
  obtain ⟨k, hk, ek⟩ := isVal_lit (x := 2.03211) (e := 1) (by norm_num) (by norm_num)
    (by norm_num) (by norm_num)
  obtain ⟨r2, h2, e2⟩ := isVal_mul_err (e := 0) (by norm_num) (by norm_num)
    hk hu' ek eu' (by rw [abs_of_pos (by norm_num)] : |(2.03211 : ℚ)| ≤ 2.03211) bu (by norm_num)
  have b1 : |1 * y| ≤ 1 := by rw [one_mul]; exact by1
  have b2 : |2.03211 * (u - 1 / 2)| ≤ 2.03211 * (1 / 2) := by
    rw [abs_mul, abs_of_pos (by norm_num : (0 : ℚ) < 2.03211)]
    exact mul_le_mul_of_nonneg_left bu (by norm_num)
  obtain ⟨r3, h3, e3⟩ := isVal_add_err (e := 1) (by norm_num) (by norm_num) h1 h2 e1 e2 b1 b2
    (by norm_num)
  obtain ⟨r4, h4, e4⟩ := isVal_mul_err (e := -126) (by norm_num) (by norm_num)
    isVal_zero hv' (by norm_num : |(0 : ℚ) - 0| ≤ 0) ev' (by norm_num : |(0 : ℚ)| ≤ 0) bv
    (by norm_num)
  have b3 : |1 * y + 2.03211 * (u - 1 / 2)| ≤ 1 + 2.03211 * (1 / 2) :=
    (abs_add _ _).trans (add_le_add b1 b2)
  have b4 : |0 * (v - 1 / 2)| ≤ 0 := by rw [zero_mul, abs_zero]
  obtain ⟨r, hr, er⟩ := isVal_add_err (e := 1) (by norm_num) (by norm_num) h3 h4 e3 e4 b3 b4
    (by norm_num)
  refine ⟨r, hr, ?_⟩
  have e5 : y + 2.03211 * (u - 0.5) =
      1 * y + 2.03211 * (u - 1 / 2) + 0 * (v - 1 / 2) := by
    norm_num
  rw [e5]
  refine er.trans ?_
  norm_num

/-- The box `resizeGL` computes in binary32 for a 1920×1080 front image in an
800×800 viewport. -/
theorem resizeGL_800x800_1920x1080 :
    ∃ s1 s2,
      setVideoInfo 1920 1080 (GLYUVRender.construct 800 800) =
        some (s1, PixelFormat.FormatYUV420P) ∧
      resizeGL 800 800 s1 = some s2 ∧
      s2.mProj = .ortho (.fin true 1) (.fin false 1)
        (.fin true (14913081 / 8388608)) (.fin false (14913081 / 8388608)) (.fin true 1) (.fin false 1) := by
  obtain ⟨s1, h1, hc1, f1, -, hp1, -⟩ :=
    setVideoInfo_of_inv 1920 1080 (inv_construct 800 800)
  have hn0 : (GLYUVRender.construct 800 800).next = 0 := rfl
  rw [hn0] at f1 hp1
  have hh : s1.heap 0 = some (I420Image.create 1920 1080) := by rw [hp1]; simp
  obtain ⟨s2, h2, -, -, -, -, -, -, -, hproj⟩ := resizeGL_front 800 800 f1 hh
  refine ⟨s1, s2, h1, h2, ?_⟩
  rw [hproj, show (I420Image.create 1920 1080).width = 1920 from rfl,
    show (I420Image.create 1920 1080).height = 1080 from rfl]
  have e1 : F32.ofInt 800 = .fin false 800 := by
    rw [ofInt_pos (by norm_num)]
    exact round_eq false 800 (9) 13107200 (by norm_num) (by norm_num) (by norm_num) (by norm_num) (by norm_num) (by norm_num) (by norm_num)
  have e2 : F32.ofInt 1920 = .fin false 1920 := by
    rw [ofInt_pos (by norm_num)]
    exact round_eq false 1920 (10) 15728640 (by norm_num) (by norm_num) (by norm_num) (by norm_num) (by norm_num) (by norm_num) (by norm_num)
  have e3 : F32.ofInt 1080 = .fin false 1080 := by
    rw [ofInt_pos (by norm_num)]
    exact round_eq false 1080 (10) 8847360 (by norm_num) (by norm_num) (by norm_num) (by norm_num) (by norm_num) (by norm_num) (by norm_num)
  have e4 : F32.lit 2 = .fin false 2 := by
    exact round_eq false 2 (1) 8388608 (by norm_num) (by norm_num) (by norm_num) (by norm_num) (by norm_num) (by norm_num) (by norm_num)
  have e5 : F32.ofInt 2 = .fin false 2 := by
    rw [ofInt_pos (by norm_num)]
    exact round_eq false 2 (1) 8388608 (by norm_num) (by norm_num) (by norm_num) (by norm_num) (by norm_num) (by norm_num) (by norm_num)
  have e6 : F32.lit 1 = .fin false 1 := by
    exact round_eq false 1 (0) 8388608 (by norm_num) (by norm_num) (by norm_num) (by norm_num) (by norm_num) (by norm_num) (by norm_num)
  have e7 : F32.neg (.fin false 1) = .fin true 1 := by
    rfl
  have e8 : F32.div (.fin false 1920) (.fin false 1080) = .fin false (14913081 / 8388608) := by
    rw [div_fin _ _ _ (by norm_num)]
    exact round_eq false (14913081 / 8388608) (0) 14913081 (by norm_num) (by norm_num) (by norm_num) (by norm_num) (by norm_num) (by norm_num) (by norm_num)
  have e9 : F32.div (.fin false 800) (.fin false 800) = .fin false 1 := by
    rw [div_fin _ _ _ (by norm_num)]
    exact round_eq false 1 (0) 8388608 (by norm_num) (by norm_num) (by norm_num) (by norm_num) (by norm_num) (by norm_num) (by norm_num)
  have e10 : F32.ofInt 1 = .fin false 1 := by
    rw [ofInt_pos (by norm_num)]
    exact round_eq false 1 (0) 8388608 (by norm_num) (by norm_num) (by norm_num) (by norm_num) (by norm_num) (by norm_num) (by norm_num)
  have e11 : F32.mul (.fin false 800) (.fin false 2) = .fin false 1600 := by
    rw [mul_fin]
    exact round_eq false 1600 (10) 13107200 (by norm_num) (by norm_num) (by norm_num) (by norm_num) (by norm_num) (by norm_num) (by norm_num)
  have e12 : F32.div (.fin false 1) (.fin false (14913081 / 8388608)) = .fin false (9 / 16) := by
    rw [div_fin _ _ _ (by norm_num)]
    exact round_eq false (9 / 16) (-1) 9437184 (by norm_num) (by norm_num) (by norm_num) (by norm_num) (by norm_num) (by norm_num) (by norm_num)
  have e13 : F32.mul (.fin false (9 / 16)) (.fin false 800) = .fin false 450 := by
    rw [mul_fin]
    exact round_eq false 450 (8) 14745600 (by norm_num) (by norm_num) (by norm_num) (by norm_num) (by norm_num) (by norm_num) (by norm_num)
  have e14 : F32.div (.fin false 1600) (.fin false 450) = .fin false (14913081 / 4194304) := by
    rw [div_fin _ _ _ (by norm_num)]
    exact round_eq false (14913081 / 4194304) (1) 14913081 (by norm_num) (by norm_num) (by norm_num) (by norm_num) (by norm_num) (by norm_num) (by norm_num)
  have e15 : F32.neg (.fin false 2) = .fin true 2 := by
    rfl
  have e16 : F32.div (.fin true 2) (.fin false 2) = .fin true 1 := by
    rw [div_fin _ _ _ (by norm_num)]
    exact round_eq true 1 (0) 8388608 (by norm_num) (by norm_num) (by norm_num) (by norm_num) (by norm_num) (by norm_num) (by norm_num)
  have e17 : F32.div (.fin false 2) (.fin false 2) = .fin false 1 := by
    rw [div_fin _ _ _ (by norm_num)]
    exact round_eq false 1 (0) 8388608 (by norm_num) (by norm_num) (by norm_num) (by norm_num) (by norm_num) (by norm_num) (by norm_num)
  have e18 : F32.neg (.fin false (14913081 / 4194304)) = .fin true (14913081 / 4194304) := by
    rfl
  have e19 : F32.div (.fin true (14913081 / 4194304)) (.fin false 2) = .fin true (14913081 / 8388608) := by
    rw [div_fin _ _ _ (by norm_num)]
    exact round_eq true (14913081 / 8388608) (0) 14913081 (by norm_num) (by norm_num) (by norm_num) (by norm_num) (by norm_num) (by norm_num) (by norm_num)
  have e20 : F32.div (.fin false (14913081 / 4194304)) (.fin false 2) = .fin false (14913081 / 8388608) := by
    rw [div_fin _ _ _ (by norm_num)]
    exact round_eq false (14913081 / 8388608) (0) 14913081 (by norm_num) (by norm_num) (by norm_num) (by norm_num) (by norm_num) (by norm_num) (by norm_num)
  have eg : F32.gt (.fin false 1) (.fin false (14913081 / 8388608)) = false := by
    rw [gt_fin]
    norm_num
  simp only [e1, e2, e3, e4, e5, e6, e7, e8, e9, e10, e11, e12, e13, e14, e15, e16, e17, e18, e19, e20, eg, Bool.false_eq_true, if_false, if_true]

/-- The box `resizeGL` computes in binary32 for a 14×2 front image in a 42×6
viewport. -/
theorem resizeGL_42x6_14x2 :
    ∃ s1 s2,
      setVideoInfo 14 2 (GLYUVRender.construct 42 6) =
        some (s1, PixelFormat.FormatYUV420P) ∧
      resizeGL 42 6 s1 = some s2 ∧
      s2.mProj = .ortho (.fin true 1) (.fin false 1)
        (.fin true (16777215 / 16777216)) (.fin false (16777215 / 16777216)) (.fin true 1) (.fin false 1) := by
  obtain ⟨s1, h1, hc1, f1, -, hp1, -⟩ :=
    setVideoInfo_of_inv 14 2 (inv_construct 42 6)
  have hn0 : (GLYUVRender.construct 42 6).next = 0 := rfl
  rw [hn0] at f1 hp1
  have hh : s1.heap 0 = some (I420Image.create 14 2) := by rw [hp1]; simp
  obtain ⟨s2, h2, -, -, -, -, -, -, -, hproj⟩ := resizeGL_front 42 6 f1 hh
  refine ⟨s1, s2, h1, h2, ?_⟩
  rw [hproj, show (I420Image.create 14 2).width = 14 from rfl,
    show (I420Image.create 14 2).height = 2 from rfl]
  have e1 : F32.ofInt 42 = .fin false 42 := by
    rw [ofInt_pos (by norm_num)]
    exact round_eq false 42 (5) 11010048 (by norm_num) (by norm_num) (by norm_num) (by norm_num) (by norm_num) (by norm_num) (by norm_num)
  have e2 : F32.ofInt 6 = .fin false 6 := by
    rw [ofInt_pos (by norm_num)]
    exact round_eq false 6 (2) 12582912 (by norm_num) (by norm_num) (by norm_num) (by norm_num) (by norm_num) (by norm_num) (by norm_num)
  have e3 : F32.ofInt 14 = .fin false 14 := by
    rw [ofInt_pos (by norm_num)]
    exact round_eq false 14 (3) 14680064 (by norm_num) (by norm_num) (by norm_num) (by norm_num) (by norm_num) (by norm_num) (by norm_num)
  have e4 : F32.ofInt 2 = .fin false 2 := by
    rw [ofInt_pos (by norm_num)]
    exact round_eq false 2 (1) 8388608 (by norm_num) (by norm_num) (by norm_num) (by norm_num) (by norm_num) (by norm_num) (by norm_num)
  have e5 : F32.lit 2 = .fin false 2 := by
    exact round_eq false 2 (1) 8388608 (by norm_num) (by norm_num) (by norm_num) (by norm_num) (by norm_num) (by norm_num) (by norm_num)
  have e6 : F32.lit 1 = .fin false 1 := by
    exact round_eq false 1 (0) 8388608 (by norm_num) (by norm_num) (by norm_num) (by norm_num) (by norm_num) (by norm_num) (by norm_num)
  have e7 : F32.neg (.fin false 1) = .fin true 1 := by
    rfl
  have e8 : F32.div (.fin false 14) (.fin false 2) = .fin false 7 := by
    rw [div_fin _ _ _ (by norm_num)]
    exact round_eq false 7 (2) 14680064 (by norm_num) (by norm_num) (by norm_num) (by norm_num) (by norm_num) (by norm_num) (by norm_num)
  have e9 : F32.div (.fin false 42) (.fin false 6) = .fin false 7 := by
    rw [div_fin _ _ _ (by norm_num)]
    exact round_eq false 7 (2) 14680064 (by norm_num) (by norm_num) (by norm_num) (by norm_num) (by norm_num) (by norm_num) (by norm_num)
  have e10 : F32.ofInt 1 = .fin false 1 := by
    rw [ofInt_pos (by norm_num)]
    exact round_eq false 1 (0) 8388608 (by norm_num) (by norm_num) (by norm_num) (by norm_num) (by norm_num) (by norm_num) (by norm_num)
  have e11 : F32.mul (.fin false 6) (.fin false 2) = .fin false 12 := by
    rw [mul_fin]
    exact round_eq false 12 (3) 12582912 (by norm_num) (by norm_num) (by norm_num) (by norm_num) (by norm_num) (by norm_num) (by norm_num)
  have e12 : F32.div (.fin false 1) (.fin false 7) = .fin false (9586981 / 67108864) := by
    rw [div_fin _ _ _ (by norm_num)]
    exact round_eq false (9586981 / 67108864) (-3) 9586981 (by norm_num) (by norm_num) (by norm_num) (by norm_num) (by norm_num) (by norm_num) (by norm_num)
  have e13 : F32.mul (.fin false (9586981 / 67108864)) (.fin false 42) = .fin false (12582913 / 2097152) := by
    rw [mul_fin]
    exact round_eq false (12582913 / 2097152) (2) 12582913 (by norm_num) (by norm_num) (by norm_num) (by norm_num) (by norm_num) (by norm_num) (by norm_num)
  have e14 : F32.div (.fin false 12) (.fin false (12582913 / 2097152)) = .fin false (16777215 / 8388608) := by
    rw [div_fin _ _ _ (by norm_num)]
    exact round_eq false (16777215 / 8388608) (0) 16777215 (by norm_num) (by norm_num) (by norm_num) (by norm_num) (by norm_num) (by norm_num) (by norm_num)
  have e15 : F32.neg (.fin false 2) = .fin true 2 := by
    rfl
  have e16 : F32.div (.fin true 2) (.fin false 2) = .fin true 1 := by
    rw [div_fin _ _ _ (by norm_num)]
    exact round_eq true 1 (0) 8388608 (by norm_num) (by norm_num) (by norm_num) (by norm_num) (by norm_num) (by norm_num) (by norm_num)
  have e17 : F32.div (.fin false 2) (.fin false 2) = .fin false 1 := by
    rw [div_fin _ _ _ (by norm_num)]
    exact round_eq false 1 (0) 8388608 (by norm_num) (by norm_num) (by norm_num) (by norm_num) (by norm_num) (by norm_num) (by norm_num)
  have e18 : F32.neg (.fin false (16777215 / 8388608)) = .fin true (16777215 / 8388608) := by
    rfl
  have e19 : F32.div (.fin true (16777215 / 8388608)) (.fin false 2) = .fin true (16777215 / 16777216) := by
    rw [div_fin _ _ _ (by norm_num)]
    exact round_eq true (16777215 / 16777216) (-1) 16777215 (by norm_num) (by norm_num) (by norm_num) (by norm_num) (by norm_num) (by norm_num) (by norm_num)
  have e20 : F32.div (.fin false (16777215 / 8388608)) (.fin false 2) = .fin false (16777215 / 16777216) := by
    rw [div_fin _ _ _ (by norm_num)]
    exact round_eq false (16777215 / 16777216) (-1) 16777215 (by norm_num) (by norm_num) (by norm_num) (by norm_num) (by norm_num) (by norm_num) (by norm_num)
  have eg : F32.gt (.fin false 7) (.fin false 7) = false := by
    rw [gt_fin]
    norm_num
  simp only [e1, e2, e3, e4, e5, e6, e7, e8, e9, e10, e11, e12, e13, e14, e15, e16, e17, e18, e19, e20, eg, Bool.false_eq_true, if_false, if_true]

/-- C3. FrameExchange state invariant: from the constructed state, after every
completed sequence of `setVideoInfo`, `createVideoFrameOver`, `clearRenderer`
(and producer writes and resizes), in any order and number, the calls all
return and either `m_Front` and `m_Back` both point to live images of
identical width and height, or both are null. -/
theorem C3_both_present_or_both_absent (w h : Int) (ops : List Op) :
    ∃ s, run ops (GLYUVRender.construct w h) = some s ∧
      ((s.m_Front = none ∧ s.m_Back = none) ∨
        ∃ f b imgF imgB, s.m_Front = some f ∧ s.m_Back = some b ∧
          s.heap f = some imgF ∧ s.heap b = some imgB ∧
          imgF.GetWidth = imgB.GetWidth ∧ imgF.GetHeight = imgB.GetHeight) := by
  obtain ⟨s, hr, hi, -⟩ := run_inv ops (inv_construct w h)
  refine ⟨s, hr, ?_⟩
  rcases hi with hn | ⟨w0, h0, f, b, imgF, imgB, e1, e2, e3, e4, e5, e6, e7, e8, e9, -⟩
  · exact Or.inl hn
  · exact Or.inr ⟨f, b, imgF, imgB, e1, e2, e4, e5, e6.trans e8.symm, e7.trans e9.symm⟩

/-- C2. No partially written frame is observable: in every state reachable
from construction, the buffers are either both absent or `m_Front` and
`m_Back` are two distinct live images and `getVideoFrameBuffer` hands out the
back one; and whatever the producer then writes through that pointer, in any
number of writes, `paintGL` issues exactly the calls (with the same plane
bytes) it would have issued before the writes. -/
theorem C2_writes_never_reach_front (w h : Int) (ops : List Op)
    (ws : List (Nat × List Byte)) :
    ∃ s, run ops (GLYUVRender.construct w h) = some s ∧
      ((s.m_Front = none ∧ s.m_Back = none) ∨
        ∃ f b imgF imgB, s.m_Front = some f ∧ s.m_Back = some b ∧ f ≠ b ∧
          s.heap f = some imgF ∧ s.heap b = some imgB ∧
          getVideoFrameBuffer s = some (I420Image.GetY b)) ∧
      ∃ tr, paintGL s = some tr ∧ paintGL (writes ws s) = some tr := by
  obtain ⟨s, hr, hi, -⟩ := run_inv ops (inv_construct w h)
  refine ⟨s, hr, ?_⟩
  rcases hi with ⟨h1, h2⟩ | ⟨w0, h0, hc⟩
  · refine ⟨Or.inl ⟨h1, h2⟩, clearOnly, paintGL_null h1, ?_⟩
    rw [writes_null ws h2]
    exact paintGL_null h1
  · have hp := (writes_configured ws hc).2
    obtain ⟨f, b, imgF, imgB, e1, e2, e3, e4, e5, -⟩ := hc
    refine ⟨Or.inr ⟨f, b, imgF, imgB, e1, e2, e3, e4, e5, ?_⟩, ?_⟩
    · simp [getVideoFrameBuffer, e2]
    · obtain ⟨tr, htr, -⟩ := paintGL_front e1 e4
      exact ⟨tr, htr, hp.trans htr⟩

/-- C8. Write before configure fails fast: from the constructed state, when no
`setVideoInfo` has been called, or none since the last `clearRenderer`,
`getVideoFrameBuffer` returns the null pointer; otherwise it returns the
pointer to the planes of the live image behind `m_Back`, which is not the
image behind `m_Front`. -/
theorem C8_buffer_handle (w h : Int) (ops : List Op) :
    ∃ s, run ops (GLYUVRender.construct w h) = some s ∧
      if configuredAfter ops false = true then
        ∃ f b img, s.m_Front = some f ∧ s.m_Back = some b ∧ f ≠ b ∧
          s.heap b = some img ∧ getVideoFrameBuffer s = some (I420Image.GetY b) ∧
          (I420Image.GetY b).obj ≠ f
      else getVideoFrameBuffer s = none := by
  obtain ⟨s, hr, hi, hc⟩ := run_inv ops (inv_construct w h)
  refine ⟨s, hr, ?_⟩
  have hc' : s.m_Front.isSome = configuredAfter ops false := hc
  rcases hi with ⟨h1, h2⟩ | ⟨w0, h0, f, b, imgF, imgB, e1, e2, e3, e4, e5, -⟩
  · have : configuredAfter ops false = false := by rw [← hc', h1]; rfl
    simp [this, getVideoFrameBuffer, h2]
  · have : configuredAfter ops false = true := by rw [← hc', e1]; rfl
    simp only [this, if_true]
    exact ⟨f, b, imgB, e1, e2, e3, e5, by simp [getVideoFrameBuffer, e2],
      fun e => e3 e.symm⟩

/-- C1. Latest-wins round trip: from any reachable state, after
`setVideoInfo nWidth nHeight` and then N >= 1 rounds of "fill the buffer
returned by `getVideoFrameBuffer`, then `createVideoFrameOver`" with no paint
in between, the planes `paintGL` uploads from the front buffer are exactly the
Y, U and V bytes written in the last round (the planes having their 4:2:0
sizes for `nWidth`×`nHeight`). -/
theorem C1_latest_wins (w h : Int) (ops : List Op) (nWidth nHeight : Int)
    (frames : List (List Byte × List Byte × List Byte)) (Y U V : List Byte)
    (hY : Y.length = I420Image.ySize nWidth nHeight)
    (hU : U.length = I420Image.cSize nWidth nHeight)
    (hV : V.length = I420Image.cSize nWidth nHeight) :
    ∃ s0 s1 tr, run ops (GLYUVRender.construct w h) = some s0 ∧
      setVideoInfo nWidth nHeight s0 = some (s1, PixelFormat.FormatYUV420P) ∧
      paintGL (rounds (frames ++ [(Y, U, V)]) s1) = some tr ∧
      uploadedPlanes tr = [Y, U, V] := by
  obtain ⟨s0, hr, hi, -⟩ := run_inv ops (inv_construct w h)
  obtain ⟨s1, hs1, hc, -⟩ := setVideoInfo_of_inv nWidth nHeight hi
  obtain ⟨tr, htr, hup⟩ := round_uploads Y U V (rounds_configured frames hc) hY hU hV
  exact ⟨s0, s1, tr, hr, hs1, by rw [rounds_snoc]; exact htr, hup⟩

/-- C1, the scenario of the specification: `configure(4,2)`, fill
Y=[1..8], U=[9,10], V=[11,12], publish once; the render step reads those
planes back. -/
theorem C1_latest_wins_witness :
    ([1, 2, 3, 4, 5, 6, 7, 8] : List Byte).length = I420Image.ySize 4 2 ∧
    ([9, 10] : List Byte).length = I420Image.cSize 4 2 ∧
    ([11, 12] : List Byte).length = I420Image.cSize 4 2 ∧
    ∃ s0 s1 tr, run [] (GLYUVRender.construct 0 0) = some s0 ∧
      setVideoInfo 4 2 s0 = some (s1, PixelFormat.FormatYUV420P) ∧
      paintGL (rounds ([] ++ [([1, 2, 3, 4, 5, 6, 7, 8], [9, 10], [11, 12])]) s1) = some tr ∧
      uploadedPlanes tr = [[1, 2, 3, 4, 5, 6, 7, 8], [9, 10], [11, 12]] :=
  ⟨by decide, by decide, by decide,
    C1_latest_wins 0 0 [] 4 2 [] [1, 2, 3, 4, 5, 6, 7, 8] [9, 10] [11, 12]
      (by decide) (by decide) (by decide)⟩

/-- C4, counterexample: after a successful `setVideoInfo(4, 2)`, the call
`setVideoInfo(3, 5)` with odd dimensions does not fail: it returns normally
(reporting `FormatYUV420P`), the previous front and back images are deleted and
`m_Front` / `m_Back` point to two new images of width 3 and height 5. -/
theorem C4_odd_dimensions_accepted :
    ∃ s1 s2 f b imgF imgB,
      setVideoInfo 4 2 (GLYUVRender.construct 0 0) = some (s1, PixelFormat.FormatYUV420P) ∧
      s1.m_Front = some f ∧ s1.m_Back = some b ∧
      s1.heap f = some imgF ∧ s1.heap b = some imgB ∧
      imgF.GetWidth = 4 ∧ imgF.GetHeight = 2 ∧
      setVideoInfo 3 5 s1 = some (s2, PixelFormat.FormatYUV420P) ∧
      s2.heap f = none ∧ s2.heap b = none ∧
      s2.m_Front ≠ s1.m_Front ∧ s2.m_Back ≠ s1.m_Back ∧
      (s2.m_Front.bind s2.heap).map I420Image.GetWidth = some 3 ∧
      (s2.m_Front.bind s2.heap).map I420Image.GetHeight = some 5 := by
  obtain ⟨s1, h1, hc1, f1, b1, hp1, -, -, -, n1⟩ :=
    setVideoInfo_of_inv 4 2 (inv_construct 0 0)
  obtain ⟨s2, h2, hc2, f2, b2, hp2, -⟩ := setVideoInfo_of_inv 3 5 (Or.inr ⟨4, 2, hc1⟩)
  have hn : s1.next = 2 := n1
  have hn0 : (GLYUVRender.construct 0 0).next = 0 := rfl
  rw [hn0] at f1 b1 hp1
  rw [hn] at f2 b2 hp2
  refine ⟨s1, s2, 0, 1, I420Image.create 4 2, I420Image.create 4 2, h1, f1, b1, ?_, ?_,
    rfl, rfl, h2, ?_, ?_, ?_, ?_, ?_, ?_⟩
  · rw [hp1]; simp
  · rw [hp1]; simp
  · rw [hp2]; simp [f1]
  · rw [hp2]; simp [b1]
  · rw [f1, f2]; simp
  · rw [b1, b2]; simp
  · rw [f2, hp2]; simp [I420Image.GetWidth, I420Image.create]
  · rw [f2, hp2]; simp [I420Image.GetHeight, I420Image.create]

/-- C4, amended: `setVideoInfo` checks nothing and has no error result. In
every reachable state and for every positive width and height, odd ones
included, it returns normally, reporting `FormatYUV420P`; the images `m_Front`
and `m_Back` pointed to before are deleted, and `m_Front` and `m_Back` point to
two distinct newly allocated images of the requested width and height. -/
theorem C4_setVideoInfo_replaces_buffers (w h : Int) (ops : List Op)
    (nWidth nHeight : Int) (hW : 0 < nWidth) (hH : 0 < nHeight) :
    ∃ s t f b imgF imgB, run ops (GLYUVRender.construct w h) = some s ∧
      setVideoInfo nWidth nHeight s = some (t, PixelFormat.FormatYUV420P) ∧
      t.m_Front = some f ∧ t.m_Back = some b ∧ f ≠ b ∧
      t.heap f = some imgF ∧ t.heap b = some imgB ∧
      imgF.GetWidth = nWidth ∧ imgF.GetHeight = nHeight ∧
      imgB.GetWidth = nWidth ∧ imgB.GetHeight = nHeight ∧
      0 < imgF.GetWidth ∧ 0 < imgF.GetHeight ∧
      (∀ a, s.m_Front = some a ∨ s.m_Back = some a →
        a ≠ f ∧ a ≠ b ∧ t.heap a = none) := by
  obtain ⟨s, hr, hi, -⟩ := run_inv ops (inv_construct w h)
  obtain ⟨t, ht, hc, hf, hb, hp, -⟩ := setVideoInfo_of_inv nWidth nHeight hi
  refine ⟨s, t, s.next, s.next + 1, I420Image.create nWidth nHeight,
    I420Image.create nWidth nHeight, hr, ht, hf, hb, by omega, ?_, ?_, rfl, rfl, rfl, rfl,
    hW, hH, ?_⟩
  · rw [hp]; simp
  · rw [hp]; simp
  · intro a ha
    have hlt : a < s.next := by
      rcases hi with ⟨h1, h2⟩ | ⟨w0, h0, f, b, imgF, imgB, e1, e2, e3, e4, e5, e6, e7, e8, e9,
        e10, e11, e12, e13⟩
      · rcases ha with ha | ha
        · rw [h1] at ha; exact absurd ha (by simp)
        · rw [h2] at ha; exact absurd ha (by simp)
      · rcases ha with ha | ha
        · rw [e1] at ha
          simp only [Option.some.injEq] at ha
          omega
        · rw [e2] at ha
          simp only [Option.some.injEq] at ha
          omega
    refine ⟨by omega, by omega, ?_⟩
    rw [hp]
    have h1 : ¬ a = s.next + 1 := by omega
    have h2 : ¬ a = s.next := by omega
    simp only [h1, h2, if_false, ha, if_true]

/-- C4 at `setVideoInfo(3, 5)` after `setVideoInfo(4, 2)`. -/
theorem C4_setVideoInfo_replaces_buffers_witness :
    (0 : Int) < 3 ∧ (0 : Int) < 5 ∧
    ∃ s t f b imgF imgB,
      run [Op.setVideoInfo 4 2] (GLYUVRender.construct 0 0) = some s ∧
      setVideoInfo 3 5 s = some (t, PixelFormat.FormatYUV420P) ∧
      t.m_Front = some f ∧ t.m_Back = some b ∧ f ≠ b ∧
      t.heap f = some imgF ∧ t.heap b = some imgB ∧
      imgF.GetWidth = 3 ∧ imgF.GetHeight = 5 ∧
      imgB.GetWidth = 3 ∧ imgB.GetHeight = 5 ∧
      0 < imgF.GetWidth ∧ 0 < imgF.GetHeight ∧
      (∀ a, s.m_Front = some a ∨ s.m_Back = some a →
        a ≠ f ∧ a ≠ b ∧ t.heap a = none) :=
  ⟨by decide, by decide,
    C4_setVideoInfo_replaces_buffers 0 0 [Op.setVideoInfo 4 2] 3 5 (by decide) (by decide)⟩

/-- C6, counterexample: right after `setVideoInfo(4, 2)` on a new widget, with
`createVideoFrameOver` never called, `paintGL` does not only clear: it uploads
three planes of the newly allocated front image and issues one draw call. -/
theorem C6_paints_before_first_publish :
    ∃ s tr, run [Op.setVideoInfo 4 2] (GLYUVRender.construct 0 0) = some s ∧
      paintGL s = some tr ∧ tr ≠ clearOnly ∧
      (uploadedPlanes tr).length = 3 ∧ drawCalls tr = 1 := by
  obtain ⟨s, hr, hi, hc⟩ := run_inv [Op.setVideoInfo 4 2] (inv_construct 0 0)
  rcases hi with ⟨h1, -⟩ | ⟨w0, h0, hcf⟩
  · rw [h1] at hc
    exact absurd hc (by decide)
  · obtain ⟨tr, htr, h3, h4, h5⟩ := paintGL_configured hcf
    exact ⟨s, tr, hr, htr, h5, h3, h4⟩

/-- C6, amended: in every state reachable from construction, whether or not
`createVideoFrameOver` was ever called, `paintGL` performs the clear only
(clear colour, clear, flush) exactly when no `setVideoInfo` has been called,
or none since the last `clearRenderer`; after a `setVideoInfo` it uploads the
three planes Y, U, V of the image behind `m_Front` (read at that image's
plane offsets and sizes) and issues one draw call. -/
theorem C6_clear_only_iff_unconfigured (w h : Int) (ops : List Op) :
    ∃ s tr, run ops (GLYUVRender.construct w h) = some s ∧ paintGL s = some tr ∧
      if configuredAfter ops false = true then
        tr ≠ clearOnly ∧ drawCalls tr = 1 ∧
        ∃ f img, s.m_Front = some f ∧ s.heap f = some img ∧
          uploadedPlanes tr =
            [ img.read 0 (I420Image.ySize img.width img.height),
              img.read (I420Image.ySize img.width img.height)
                (I420Image.cSize img.width img.height),
              img.read (I420Image.ySize img.width img.height +
                I420Image.cSize img.width img.height)
                (I420Image.cSize img.width img.height) ]
      else tr = clearOnly := by
  obtain ⟨s, hr, hi, hc⟩ := run_inv ops (inv_construct w h)
  have hc' : s.m_Front.isSome = configuredAfter ops false := hc
  rcases hi with ⟨h1, -⟩ | ⟨w0, h0, hcf⟩
  · have : configuredAfter ops false = false := by rw [← hc', h1]; rfl
    exact ⟨s, clearOnly, hr, paintGL_null h1, by simp [this]⟩
  · obtain ⟨f, b, imgF, imgB, e1, -, -, e4, -⟩ := hcf
    obtain ⟨tr, htr, hup, hd⟩ := paintGL_front e1 e4
    have : configuredAfter ops false = true := by rw [← hc', e1]; rfl
    have hne : tr ≠ clearOnly := by
      intro e
      rw [e, drawCalls_clearOnly] at hd
      exact absurd hd (by decide)
    refine ⟨s, tr, hr, htr, ?_⟩
    simp only [this, if_true]
    exact ⟨hne, hd, f, imgF, e1, e4, hup⟩

/-- C7, counterexample: on a new widget, the second of two `clearRenderer`
calls in a row is not a no-op: it posts one more `QPaintLaterEvent`, so the
state after it differs from the state after the first call. -/
theorem C7_second_teardown_posts_event :
    ∃ s1 s2, clearRenderer (GLYUVRender.construct 0 0) = some s1 ∧
      clearRenderer s1 = some s2 ∧ s1.posted.length = 1 ∧ s2.posted.length = 2 ∧
      s2 ≠ s1 := by
  have h1 := clearRenderer_of_inv (inv_construct 0 0)
  refine ⟨_, _, h1, clearRenderer_of_inv (Or.inl ⟨rfl, rfl⟩), rfl, rfl, ?_⟩
  intro e
  have := congrArg (fun s => s.posted.length) e
  simp [updateUi, GLYUVRender.construct] at this

/-- C7, amended: in every reachable state, a second `clearRenderer` right
after a first one raises no error and leaves `m_Front` and `m_Back` null and
the free store, the geometry and the matrices unchanged; its one effect is
that `updateUi` posts one more `QPaintLaterEvent`. -/
theorem C7_second_teardown_only_posts (w h : Int) (ops : List Op) :
    ∃ s s1, run ops (GLYUVRender.construct w h) = some s ∧
      clearRenderer s = some s1 ∧ s1.m_Front = none ∧ s1.m_Back = none ∧
      clearRenderer s1 = some { s1 with
        posted := s1.posted ++ [{ x := 0, y := 0, w := s1.width, h := s1.height }] } := by
  obtain ⟨s, hr, hi, -⟩ := run_inv ops (inv_construct w h)
  refine ⟨s, _, hr, clearRenderer_of_inv hi, rfl, rfl, ?_⟩
  rw [clearRenderer_of_inv (Or.inl ⟨rfl, rfl⟩)]
  simp [updateUi]

/-- C5, counterexample: with a 1920×1080 front image and an 800×800 viewport
the box of `resizeGL` reaches from -1 to 1 in width and from -14913081/8388608
to 14913081/8388608 in height, so its width extent divided by its height extent
is not 1920/1080. -/
theorem C5_extent_ratio_is_not_source_ratio :
    ∃ s1 s2 l r b t,
      setVideoInfo 1920 1080 (GLYUVRender.construct 800 800) =
        some (s1, PixelFormat.FormatYUV420P) ∧
      resizeGL 800 800 s1 = some s2 ∧
      s2.mProj = .ortho (.fin true l) (.fin false r) (.fin true b) (.fin false t)
        (.fin true 1) (.fin false 1) ∧
      (r - -l) / (t - -b) ≠ 1920 / 1080 := by
  obtain ⟨s1, s2, h1, h2, h3⟩ := resizeGL_800x800_1920x1080
  exact ⟨s1, s2, 1, 1, 14913081 / 8388608, 14913081 / 8388608, h1, h2, h3, by norm_num⟩

/-- C5, amended: with a 1920×1080 front image and an 800×800 viewport,
`resizeGL`, computing in binary32, yields the centred box
`ortho(-1, 1, -t, t, -1, 1)` with `t = 14913081/8388608`, the binary32 number
next to 16/9. The width extent is 2, the height extent `2t`; their ratio is
1080/1920 up to rounding (not 1920/1080), and it is the on-screen size of the
quad, `800/1` by `800/t`, whose ratio is 1920/1080 up to rounding, both within
`10^-7`. -/
theorem C5_aspect_1920x1080_in_800x800 :
    ∃ s1 s2 t,
      setVideoInfo 1920 1080 (GLYUVRender.construct 800 800) =
        some (s1, PixelFormat.FormatYUV420P) ∧
      resizeGL 800 800 s1 = some s2 ∧
      s2.mProj = .ortho (.fin true 1) (.fin false 1) (.fin true t) (.fin false t)
        (.fin true 1) (.fin false 1) ∧
      t = 14913081 / 8388608 ∧ |t - 16 / 9| ≤ 1 / 10 ^ 7 ∧
      |(1 - -1) / (t - -t) - 1080 / 1920| ≤ 1 / 10 ^ 7 ∧
      |(800 / 1) / (800 / t) - 1920 / 1080| ≤ 1 / 10 ^ 7 := by
  obtain ⟨s1, s2, h1, h2, h3⟩ := resizeGL_800x800_1920x1080
  refine ⟨s1, s2, 14913081 / 8388608, h1, h2, h3, rfl, ?_, ?_, ?_⟩
  · rw [abs_le]; constructor <;> norm_num
  · rw [abs_le]; constructor <;> norm_num
  · rw [abs_le]; constructor <;> norm_num

/-- C10, counterexample: with a 14×2 front image and a 42×6 viewport (both of
ratio 7) `resizeGL`, computing in binary32, yields the box
`ortho(-1, 1, -t, t, -1, 1)` with `t = 16777215/16777216`: the height extent
`2t` is below 2 and not the `2*(sw/sh)/(w/h) = 2` of the claim, and the
vertices of the quad with `y = 1` lie outside the box. -/
theorem C10_extent_below_two :
    ∃ s1 s2 t,
      setVideoInfo 14 2 (GLYUVRender.construct 42 6) =
        some (s1, PixelFormat.FormatYUV420P) ∧
      resizeGL 42 6 s1 = some s2 ∧
      s2.mProj = .ortho (.fin true 1) (.fin false 1) (.fin true t) (.fin false t)
        (.fin true 1) (.fin false 1) ∧
      t - -t < 2 ∧
      t - -t ≠ 2 * (((14 : Int) : ℚ) / ((2 : Int) : ℚ)) / (((42 : Int) : ℚ) / ((6 : Int) : ℚ)) ∧
      ∃ v ∈ vertexVertices, t < v.2 := by
  obtain ⟨s1, s2, h1, h2, h3⟩ := resizeGL_42x6_14x2
  refine ⟨s1, s2, 16777215 / 16777216, h1, h2, h3, by norm_num, by norm_num,
    (1, 1), by simp [vertexVertices], by norm_num⟩

/-- C10, amended: for positive viewport sizes `w`, `h` and a front image of
positive size `sw`×`sh` (all below `2^31`), `resizeGL`, computing in binary32,
sets `mProj` to a centred box `ortho(-a, a, -b, b, -1, 1)` with finite
half-extents. When the binary32 comparison `float(w)/h > aspectRatio` holds,
`b = 1` (height extent exactly 2) and `1 ≤ a` (width extent at least 2,
exactly); otherwise `a = 1` (width extent exactly 2) and the half height `b`
is at least `1 - 2^-21`, that is, at least 1 only up to rounding. In both
cases the on-screen size `w/a` by `h/b` of the quad has ratio `sw/sh` up to a
relative error of `2^-20`. -/
theorem C10_letterbox_up_to_rounding (w h sw sh : Int) (hw : 0 < w) (hw2 : w < 2 ^ 31)
    (hh : 0 < h) (hh2 : h < 2 ^ 31) (hsw : 0 < sw) (hsw2 : sw < 2 ^ 31) (hsh : 0 < sh)
    (hsh2 : sh < 2 ^ 31) (s : GLYUVRender) (p : Nat) (img : I420Image)
    (hf : s.m_Front = some p) (hp : s.heap p = some img)
    (hiw : img.GetWidth = sw) (hih : img.GetHeight = sh) :
    ∃ t, ∃ a b : ℚ, resizeGL w h s = some t ∧
      t.mProj = .ortho (.fin true a) (.fin false a) (.fin true b) (.fin false b)
        (.fin true 1) (.fin false 1) ∧
      (if F32.gt (F32.div (F32.ofInt w) (F32.ofInt h))
            (F32.div (F32.ofInt sw) (F32.ofInt sh)) = true then
          b = 1 ∧ 1 ≤ a
        else a = 1 ∧ 1 - 1 / 2 ^ 21 ≤ b) ∧
      |((w : ℚ) / a) / ((h : ℚ) / b) - (sw : ℚ) / (sh : ℚ)| ≤
        1 / 2 ^ 20 * ((sw : ℚ) / (sh : ℚ)) := by
  have e1 : img.width = sw := hiw
  have e2 : img.height = sh := hih
  obtain ⟨t, ht, -, -, -, -, -, -, -, hproj⟩ := resizeGL_front w h hf hp
  rw [e1, e2] at hproj
  obtain ⟨a, b, hbox, hpin, hratio⟩ := letterbox_box w h sw sh hw hw2 hh hh2 hsw hsw2 hsh hsh2
  exact ⟨t, a, b, ht, hproj.trans hbox, hpin, hratio⟩

/-- C10 at a 6×4 viewport and a 4×2 front image. -/
theorem C10_letterbox_up_to_rounding_witness :
    (0 : Int) < 6 ∧ (6 : Int) < 2 ^ 31 ∧ (0 : Int) < 4 ∧ (4 : Int) < 2 ^ 31 ∧
    (0 : Int) < 2 ∧ (2 : Int) < 2 ^ 31 ∧
    configured42.m_Front = some 0 ∧
    configured42.heap 0 = some (I420Image.create 4 2) ∧
    (I420Image.create 4 2).GetWidth = 4 ∧ (I420Image.create 4 2).GetHeight = 2 ∧
    ∃ t, ∃ a b : ℚ, resizeGL 6 4 configured42 = some t ∧
      t.mProj = .ortho (.fin true a) (.fin false a) (.fin true b) (.fin false b)
        (.fin true 1) (.fin false 1) ∧
      (if F32.gt (F32.div (F32.ofInt 6) (F32.ofInt 4))
            (F32.div (F32.ofInt 4) (F32.ofInt 2)) = true then
          b = 1 ∧ 1 ≤ a
        else a = 1 ∧ 1 - 1 / 2 ^ 21 ≤ b) ∧
      |(((6 : Int) : ℚ) / a) / (((4 : Int) : ℚ) / b) - ((4 : Int) : ℚ) / ((2 : Int) : ℚ)| ≤
        1 / 2 ^ 20 * (((4 : Int) : ℚ) / ((2 : Int) : ℚ)) :=
  ⟨by decide, by decide, by decide, by decide, by decide, by decide, rfl, rfl, rfl, rfl,
    C10_letterbox_up_to_rounding 6 4 4 2 (by decide) (by decide) (by decide) (by decide)
      (by decide) (by decide) (by decide) (by decide) configured42 0
      (I420Image.create 4 2) rfl rfl rfl rfl⟩

/-- C9, counterexample: full-range samples with saturated chroma leave [0,1].
In binary32, Y = 1, U = 0.5, V = 1 gives R = 6584701/4194304, about 1.5699, above
1; Y = 0, U = 0.5, V = 0 gives R = -9561587/16777216, below 0; Y = 0, U = 1,
V = 0.5 gives B = 8523287/8388608, above 1. -/
theorem C9_rgb_leaves_unit_interval :
    (fragmentShader (.fin false 1) (.fin false (1 / 2)) (.fin false 1)).1 = .fin false (6584701 / 4194304) ∧
    (fragmentShader (.fin false 0) (.fin false (1 / 2)) (.fin false 0)).1 = .fin true (9561587 / 16777216) ∧
    (fragmentShader (.fin false 0) (.fin false 1) (.fin false (1 / 2))).2.2 = .fin false (8523287 / 8388608) ∧
    (1 : ℚ) < (6584701 / 4194304) ∧ (1 : ℚ) < (8523287 / 8388608) := by
  have e1 : F32.lit 0.5 = .fin false (1 / 2) := by
    exact round_eq false (1 / 2) (-1) 8388608 (by norm_num) (by norm_num) (by norm_num) (by norm_num) (by norm_num) (by norm_num) (by norm_num)
  have e2 : F32.sub (.fin false (1 / 2)) (.fin false (1 / 2)) = .fin false 0 := by
    simp only [F32.sub, F32.neg, F32.add, F32.signed]
    norm_num
  have e3 : F32.sub (.fin false 1) (.fin false (1 / 2)) = .fin false (1 / 2) := by
    exact add_eval_sub _ _ _ _ false (1 / 2) (1 / 2) (by norm_num [F32.signed]) (by norm_num)
      (round_eq false (1 / 2) (-1) 8388608 (by norm_num) (by norm_num) (by norm_num) (by norm_num) (by norm_num) (by norm_num) (by norm_num))
  have e4 : F32.ofInt 1 = .fin false 1 := by
    rw [ofInt_pos (by norm_num)]
    exact round_eq false 1 (0) 8388608 (by norm_num) (by norm_num) (by norm_num) (by norm_num) (by norm_num) (by norm_num) (by norm_num)
  have e5 : F32.lit 1.13983 = .fin false (9561587 / 8388608) := by
    exact round_eq false (9561587 / 8388608) (0) 9561587 (by norm_num) (by norm_num) (by norm_num) (by norm_num) (by norm_num) (by norm_num) (by norm_num)
  have e6 : F32.mul (.fin false 1) (.fin false 1) = .fin false 1 := by
    rw [mul_fin]
    exact round_eq false 1 (0) 8388608 (by norm_num) (by norm_num) (by norm_num) (by norm_num) (by norm_num) (by norm_num) (by norm_num)
  have e7 : F32.mul (.fin false 0) (.fin false 0) = .fin false 0 := by
    rw [mul_fin]
    have e0 : (0 : ℚ) * 0 = 0 := by norm_num
    rw [e0]
    exact round_zero _
  have e8 : F32.add (.fin false 1) (.fin false 0) = .fin false 1 := by
    exact add_eval _ _ _ _ false 1 1 (by norm_num [F32.signed]) (by norm_num)
      (round_eq false 1 (0) 8388608 (by norm_num) (by norm_num) (by norm_num) (by norm_num) (by norm_num) (by norm_num) (by norm_num))
  have e9 : F32.mul (.fin false (9561587 / 8388608)) (.fin false (1 / 2)) = .fin false (9561587 / 16777216) := by
    rw [mul_fin]
    exact round_eq false (9561587 / 16777216) (-1) 9561587 (by norm_num) (by norm_num) (by norm_num) (by norm_num) (by norm_num) (by norm_num) (by norm_num)
  have e10 : F32.add (.fin false 1) (.fin false (9561587 / 16777216)) = .fin false (6584701 / 4194304) := by
    exact add_eval _ _ _ _ false (26338803 / 16777216) (6584701 / 4194304) (by norm_num [F32.signed]) (by norm_num)
      (round_eq_tie false (6584701 / 4194304) (0) 13169401 13169402 (by norm_num) (by norm_num) (by norm_num) (by norm_num) (by norm_num) (by decide) (by norm_num) (by norm_num))
  have e11 : F32.sub (.fin false 0) (.fin false (1 / 2)) = .fin true (1 / 2) := by
    exact add_eval_sub _ _ _ _ true (1 / 2) (1 / 2) (by norm_num [F32.signed]) (by norm_num)
      (round_eq true (1 / 2) (-1) 8388608 (by norm_num) (by norm_num) (by norm_num) (by norm_num) (by norm_num) (by norm_num) (by norm_num))
  have e12 : F32.mul (.fin false 1) (.fin false 0) = .fin false 0 := by
    rw [mul_fin]
    have e0 : (1 : ℚ) * 0 = 0 := by norm_num
    rw [e0]
    exact round_zero _
  have e13 : F32.add (.fin false 0) (.fin false 0) = .fin false 0 := by
    simp only [F32.sub, F32.neg, F32.add, F32.signed]
    norm_num
  have e14 : F32.mul (.fin false (9561587 / 8388608)) (.fin true (1 / 2)) = .fin true (9561587 / 16777216) := by
    rw [mul_fin]
    exact round_eq true (9561587 / 16777216) (-1) 9561587 (by norm_num) (by norm_num) (by norm_num) (by norm_num) (by norm_num) (by norm_num) (by norm_num)
  have e15 : F32.add (.fin false 0) (.fin true (9561587 / 16777216)) = .fin true (9561587 / 16777216) := by
    exact add_eval _ _ _ _ true (9561587 / 16777216) (9561587 / 16777216) (by norm_num [F32.signed]) (by norm_num)
      (round_eq true (9561587 / 16777216) (-1) 9561587 (by norm_num) (by norm_num) (by norm_num) (by norm_num) (by norm_num) (by norm_num) (by norm_num))
  have e16 : F32.lit 2.03211 = .fin false (8523287 / 4194304) := by
    exact round_eq false (8523287 / 4194304) (1) 8523287 (by norm_num) (by norm_num) (by norm_num) (by norm_num) (by norm_num) (by norm_num) (by norm_num)
  have e17 : F32.mul (.fin false (8523287 / 4194304)) (.fin false (1 / 2)) = .fin false (8523287 / 8388608) := by
    rw [mul_fin]
    exact round_eq false (8523287 / 8388608) (0) 8523287 (by norm_num) (by norm_num) (by norm_num) (by norm_num) (by norm_num) (by norm_num) (by norm_num)
  have e18 : F32.add (.fin false 0) (.fin false (8523287 / 8388608)) = .fin false (8523287 / 8388608) := by
    exact add_eval _ _ _ _ false (8523287 / 8388608) (8523287 / 8388608) (by norm_num [F32.signed]) (by norm_num)
      (round_eq false (8523287 / 8388608) (0) 8523287 (by norm_num) (by norm_num) (by norm_num) (by norm_num) (by norm_num) (by norm_num) (by norm_num))
  have e19 : F32.add (.fin false (8523287 / 8388608)) (.fin false 0) = .fin false (8523287 / 8388608) := by
    exact add_eval _ _ _ _ false (8523287 / 8388608) (8523287 / 8388608) (by norm_num [F32.signed]) (by norm_num)
      (round_eq false (8523287 / 8388608) (0) 8523287 (by norm_num) (by norm_num) (by norm_num) (by norm_num) (by norm_num) (by norm_num) (by norm_num))
  refine ⟨?_, ?_, ?_, by norm_num, by norm_num⟩ <;>
    simp only [fragmentShader, Mat3.mulVec, ofInt_zero, e1, e2, e3, e4, e5, e6, e7, e8, e9, e10, e11, e12, e13, e14, e15, e16, e17, e18, e19]

/-- C9, amended: for samples Y, U, V in [0,1] the shader, computing in
binary32, yields finite R, G, B with
R = Y + 1.13983*(V-0.5), G = Y - 0.39465*(U-0.5) - 0.58060*(V-0.5),
B = Y + 2.03211*(U-0.5) (the matrix read column by column), each up to a
rounding error of at most `10^-6`; so R lies in [-0.569916, 1.569916], G in
[-0.487626, 1.487626] and B in [-1.016056, 2.016056], and not in [0,1] in
general. -/
theorem C9_rgb_range (y u v : ℚ) (hy0 : 0 ≤ y) (hy1 : y ≤ 1) (hu0 : 0 ≤ u) (hu1 : u ≤ 1)
    (hv0 : 0 ≤ v) (hv1 : v ≤ 1) :
    ∃ r g b : ℚ,
      (fragmentShader (.fin false y) (.fin false u) (.fin false v)).1.toRat = some r ∧
      (fragmentShader (.fin false y) (.fin false u) (.fin false v)).2.1.toRat = some g ∧
      (fragmentShader (.fin false y) (.fin false u) (.fin false v)).2.2.toRat = some b ∧
      |r - (y + 1.13983 * (v - 0.5))| ≤ 1 / 10 ^ 6 ∧
      |g - (y - 0.39465 * (u - 0.5) - 0.58060 * (v - 0.5))| ≤ 1 / 10 ^ 6 ∧
      |b - (y + 2.03211 * (u - 0.5))| ≤ 1 / 10 ^ 6 ∧
      -0.569916 ≤ r ∧ r ≤ 1.569916 ∧ -0.487626 ≤ g ∧ g ≤ 1.487626 ∧
      -1.016056 ≤ b ∧ b ≤ 2.016056 := by
  obtain ⟨r, hr, er⟩ := shader_red hy0 hy1 hu0 hu1 hv0 hv1
  obtain ⟨g, hg, eg⟩ := shader_green hy0 hy1 hu0 hu1 hv0 hv1
  obtain ⟨b, hb, eb⟩ := shader_blue hy0 hy1 hu0 hu1 hv0 hv1
  refine ⟨r, g, b, isVal_toRat hr, isVal_toRat hg, isVal_toRat hb, er, eg, eb, ?_⟩
  have er' := abs_le.1 er
  have eg' := abs_le.1 eg
  have eb' := abs_le.1 eb
  norm_num at er' eg' eb' ⊢
  refine ⟨?_, ?_, ?_, ?_, ?_, ?_⟩ <;> linarith [er'.1, er'.2, eg'.1, eg'.2, eb'.1, eb'.2]

/-- C9 at Y = 1, U = 0.5, V = 1. -/
theorem C9_rgb_range_witness :
    (0 : ℚ) ≤ 1 ∧ (1 : ℚ) ≤ 1 ∧ (0 : ℚ) ≤ 1 / 2 ∧ (1 / 2 : ℚ) ≤ 1 ∧
    ∃ r g b : ℚ,
      (fragmentShader (.fin false 1) (.fin false (1 / 2)) (.fin false 1)).1.toRat = some r ∧
      (fragmentShader (.fin false 1) (.fin false (1 / 2)) (.fin false 1)).2.1.toRat = some g ∧
      (fragmentShader (.fin false 1) (.fin false (1 / 2)) (.fin false 1)).2.2.toRat = some b ∧
      |r - (1 + 1.13983 * (1 - 0.5))| ≤ 1 / 10 ^ 6 ∧
      |g - (1 - 0.39465 * (1 / 2 - 0.5) - 0.58060 * (1 - 0.5))| ≤ 1 / 10 ^ 6 ∧
      |b - (1 + 2.03211 * (1 / 2 - 0.5))| ≤ 1 / 10 ^ 6 ∧
      -0.569916 ≤ r ∧ r ≤ 1.569916 ∧ -0.487626 ≤ g ∧ g ≤ 1.487626 ∧
      -1.016056 ≤ b ∧ b ≤ 2.016056 :=
  ⟨by norm_num, by norm_num, by norm_num, by norm_num,
    C9_rgb_range 1 (1 / 2) 1 (by norm_num) (by norm_num) (by norm_num) (by norm_num)
      (by norm_num) (by norm_num)⟩

end GLYUV
